import Mathlib

/-!
A shallow embedding of `hipsternet/optimization.py` and a verification of the
spec's claims about it.

Modelling conventions:
* numpy arrays of floats are modelled as `List ℝ` with element-wise operations
  (`a - b`, `alpha * g`, `g**2`, `np.sqrt`, `/`, `+ eps` become `zipWith`/`map`);
* Python dicts keyed by layer name are association lists `List (String × _)`
  whose key lists are `Nodup` (Python dict keys are unique);
* a raised `KeyError` (reading a missing dict key) makes a computation return
  `none`, so every fallible step is `Option`-valued;
* object identity (dict aliasing, `dict.copy()`, in-place numpy mutation) is
  modelled by explicit `Nat` addresses and, for the data arrays, a small store
  mapping addresses to array contents;
* the two sources of randomness (`np.random.shuffle` and `np.random.randint`)
  are modelled as explicit inputs: a permutation `perm` of the row indices and
  a stream `idxs : Nat → Nat` of minibatch draws (reduced mod the partition
  size, as `randint(0, len(minibatches))` always lands in range);
* `print` is modelled by accumulating the printed lines in a list, and the
  training loop additionally records a ghost trace of
  (iteration, chosen index, minibatch, loss) tuples;
* the training data `X, y` never meets the real-valued parameters (it only
  flows into the opaque gradient oracle), so its scalars are modelled as `ℚ`,
  keeping the minibatch machinery fully computable.
-/

namespace Hipsternet

/-- A numpy float array, element-wise. -/
abbrev Arr := List ℝ

/-- A Python dict from layer names to arrays (`model['net_params']`, `grad`,
`velocity`, `cache`, `M`, `R`). -/
abbrev PMap := List (String × Arr)

/-- Dict lookup `m[k]`; `none` models a raised `KeyError`. -/
def lookupP (m : PMap) (k : String) : Option Arr :=
  match m with
  | [] => none
  | kv :: rest => if kv.1 = k then some kv.2 else lookupP rest k

/-- Dict assignment `m[k] = v` at an existing key (all writes in the source
happen at keys that were just read, hence present). -/
def setP (m : PMap) (k : String) (v : Arr) : PMap :=
  m.map (fun kv => if kv.1 = k then (k, v) else kv)

/-- The dict's key list, in insertion order. -/
def keysP (m : PMap) : List String := m.map Prod.fst

/-- `alpha * g` (scalar times array). -/
def scale (a : ℝ) (x : Arr) : Arr := x.map (fun t => a * t)

/-- Element-wise array addition. -/
def arrAdd (x y : Arr) : Arr := List.zipWith (fun s t => s + t) x y

/-- Element-wise array subtraction (`p -= d` reads as `p := arrSub p d`). -/
def arrSub (x y : Arr) : Arr := List.zipWith (fun s t => s - t) x y

/-- `g**2`, element-wise. -/
def arrSq (x : Arr) : Arr := x.map (fun t => t ^ 2)

/-- `np.sqrt`, element-wise. -/
noncomputable def arrSqrt (x : Arr) : Arr := x.map Real.sqrt

/-- Element-wise array division. -/
noncomputable def arrDiv (x y : Arr) : Arr := List.zipWith (fun s t => s / t) x y

/-- Array divided by a scalar (`M / (1 - beta1**t)`). -/
noncomputable def divConst (s : ℝ) (x : Arr) : Arr := x.map (fun t => t / s)

/-- Scalar added to an array (`np.sqrt(cache) + eps`). -/
def addConst (e : ℝ) (x : Arr) : Arr := x.map (fun t => t + e)

/-- `np.zeros_like` on one array. -/
def zerosLike (x : Arr) : Arr := x.map (fun _ => 0)

/-- `{k: np.zeros_like(v) for k, v in ps.items()}`. -/
def zerosLikeP (m : PMap) : PMap := m.map (fun kv => (kv.1, zerosLike kv.2))

/-- Modelled from the spec: `hipsternet.constant.eps` is referenced by the
source (`c.eps`) but `hipsternet/constant.py` is not among the sources; the
spec says "`eps` is a small constant (e.g. 1e-8) preventing division by
zero." -/
noncomputable def eps : ℝ := 1e-8

/-- Modelled from the spec: `hipsternet.utils.exp_running_avg` is called by
`rmsprop` and `adam` but `hipsternet/utils.py` is not among the sources; the
spec's glossary defines it as "`new = gamma*old + (1-gamma)*sample`", applied
element-wise. -/
def exp_running_avg (old sample : Arr) (gamma : ℝ) : Arr :=
  arrAdd (scale gamma old) (scale (1 - gamma) sample)

section AssocLemmas

theorem lookupP_cons (kv : String × Arr) (rest : PMap) (k : String) :
    lookupP (kv :: rest) k = if kv.1 = k then some kv.2 else lookupP rest k := rfl

theorem keysP_cons (kv : String × Arr) (rest : PMap) :
    keysP (kv :: rest) = kv.1 :: keysP rest := rfl

theorem setP_cons (kv : String × Arr) (rest : PMap) (k : String) (v : Arr) :
    setP (kv :: rest) k v = (if kv.1 = k then (k, v) else kv) :: setP rest k v := rfl

theorem lookupP_eq_none_iff (m : PMap) (k : String) :
    lookupP m k = none ↔ k ∉ keysP m := by
  induction m with
  | nil => simp [lookupP, keysP]
  | cons kv rest ih =>
    rw [lookupP_cons, keysP_cons]
    by_cases h : kv.1 = k
    · simp [h]
    · rw [if_neg h, ih, List.mem_cons]
      constructor
      · intro hn hmem
        rcases hmem with he | hm
        · exact h he.symm
        · exact hn hm
      · intro hn hm
        exact hn (Or.inr hm)

theorem lookupP_isSome_iff (m : PMap) (k : String) :
    (lookupP m k).isSome ↔ k ∈ keysP m := by
  rw [Option.isSome_iff_ne_none, ne_eq, lookupP_eq_none_iff]
  exact not_not

theorem keysP_setP (m : PMap) (k : String) (v : Arr) :
    keysP (setP m k v) = keysP m := by
  induction m with
  | nil => rfl
  | cons kv rest ih =>
    rw [setP_cons, keysP_cons, keysP_cons]
    by_cases h : kv.1 = k
    · rw [if_pos h, ih]
      simp [h]
    · rw [if_neg h, ih]

theorem lookupP_setP_self (m : PMap) (k : String) (v : Arr) (hk : k ∈ keysP m) :
    lookupP (setP m k v) k = some v := by
  induction m with
  | nil => simp [keysP] at hk
  | cons kv rest ih =>
    rw [setP_cons]
    by_cases h : kv.1 = k
    · simp [h, lookupP_cons]
    · rw [keysP_cons, List.mem_cons] at hk
      have hk' : k ∈ keysP rest := hk.resolve_left (fun he => h he.symm)
      rw [if_neg h, lookupP_cons, if_neg h, ih hk']

theorem lookupP_setP_ne (m : PMap) (k k' : String) (v : Arr) (h : k' ≠ k) :
    lookupP (setP m k v) k' = lookupP m k' := by
  induction m with
  | nil => rfl
  | cons kv rest ih =>
    rw [setP_cons, lookupP_cons (k := k')]
    by_cases hh : kv.1 = k
    · have h1 : ¬ (k = k') := fun he => h he.symm
      rw [if_pos hh]
      rw [lookupP_cons, if_neg h1, ih]
      rw [if_neg (by rw [hh]; exact h1)]
    · rw [if_neg hh, lookupP_cons, ih]

theorem setP_of_not_mem (m : PMap) (k : String) (v : Arr) (hk : k ∉ keysP m) :
    setP m k v = m := by
  induction m with
  | nil => rfl
  | cons kv rest ih =>
    rw [keysP_cons, List.mem_cons] at hk
    push_neg at hk
    rw [setP_cons, if_neg (fun he => hk.1 he.symm), ih hk.2]

theorem setP_eq_self (m : PMap) (k : String) (v : Arr)
    (hnd : (keysP m).Nodup) (hv : lookupP m k = some v) :
    setP m k v = m := by
  induction m with
  | nil => rfl
  | cons kv rest ih =>
    rw [keysP_cons, List.nodup_cons] at hnd
    rw [setP_cons]
    by_cases h : kv.1 = k
    · have hvv : kv.2 = v := by
        rw [lookupP_cons, if_pos h] at hv
        exact Option.some.inj hv
      rw [if_pos h, setP_of_not_mem rest k v (h ▸ hnd.1)]
      cases kv
      simp_all
    · have hv' : lookupP rest k = some v := by
        rw [lookupP_cons, if_neg h] at hv
        exact hv
      rw [if_neg h, ih hnd.2 hv']

/-- Two dicts with the same ordered key list, no duplicate keys, and equal
lookups at every key are equal. -/
theorem eqP_of_lookup (m1 : PMap) : ∀ (m2 : PMap),
    keysP m1 = keysP m2 → (keysP m1).Nodup →
    (∀ k, lookupP m1 k = lookupP m2 k) → m1 = m2 := by
  induction m1 with
  | nil =>
    intro m2 hk _ _
    cases m2 with
    | nil => rfl
    | cons kv rest => exact absurd hk (by simp [keysP])
  | cons kv rest ih =>
    intro m2 hk hnd hl
    cases m2 with
    | nil => exact absurd hk (by simp [keysP])
    | cons kv' rest' =>
      rw [keysP_cons, keysP_cons] at hk
      injection hk with hk1 hkrest
      rw [keysP_cons, List.nodup_cons] at hnd
      have hv : kv.2 = kv'.2 := by
        have hx := hl kv.1
        rw [lookupP_cons, lookupP_cons, if_pos rfl, if_pos hk1.symm] at hx
        exact Option.some.inj hx
      have hlr : ∀ k, lookupP rest k = lookupP rest' k := by
        intro k
        by_cases h : k = kv.1
        · rw [h, (lookupP_eq_none_iff rest kv.1).mpr hnd.1,
              (lookupP_eq_none_iff rest' kv.1).mpr (hkrest ▸ hnd.1)]
        · have hx := hl k
          rw [lookupP_cons, lookupP_cons,
              if_neg (fun he => h he.symm),
              if_neg (fun he => h (he.symm.trans hk1.symm))] at hx
          exact hx
      have hrest : rest = rest' := ih rest' hkrest hnd.2 hlr
      cases kv; cases kv'
      subst hk1
      subst hv
      subst hrest
      rfl

end AssocLemmas

/-! ### The per-iteration update loops

Each optimizer's `for layer in grad:` loop is a fold over the gradient dict.
`update0` covers `sgd` (no auxiliary state), `update1` covers
`momentum`/`nesterov` (velocity) and `adagrad`/`rmsprop` (cache), `update2`
covers `adam` (first and second moments).  A missing key (Python `KeyError`)
aborts the computation with `none`. -/

/-- `for layer in grad: model['net_params'][layer] -= ...` with no auxiliary
state; `f p g` is the new parameter value computed from the old value `p` and
the gradient `g` at that key. -/
def update0 (f : Arr → Arr → Arr) : PMap → PMap → Option PMap
  | params, [] => some params
  | params, kv :: rest => do
    let p ← lookupP params kv.1
    update0 f (setP params kv.1 (f p kv.2)) rest

/-- The same loop with one auxiliary dict (velocity or cache); `f p a g`
returns the new (parameter, auxiliary) pair at the key. -/
def update1 (f : Arr → Arr → Arr → Arr × Arr) : PMap → PMap → PMap → Option (PMap × PMap)
  | params, aux, [] => some (params, aux)
  | params, aux, kv :: rest => do
    let a ← lookupP aux kv.1
    let p ← lookupP params kv.1
    let r := f p a kv.2
    update1 f (setP params kv.1 r.1) (setP aux kv.1 r.2) rest

/-- The same loop with two auxiliary dicts (`adam`'s `M` and `R`). -/
def update2 (f : Arr → Arr × Arr → Arr → Arr × (Arr × Arr)) :
    PMap → PMap × PMap → PMap → Option (PMap × (PMap × PMap))
  | params, aux, [] => some (params, aux)
  | params, aux, kv :: rest => do
    let a1 ← lookupP aux.1 kv.1
    let a2 ← lookupP aux.2 kv.1
    let p ← lookupP params kv.1
    let r := f p (a1, a2) kv.2
    update2 f (setP params kv.1 r.1)
      (setP aux.1 kv.1 r.2.1, setP aux.2 kv.1 r.2.2) rest

/-- `sgd`: `model['net_params'][layer] -= alpha * grad[layer]`. -/
def sgdF (alpha : ℝ) (p g : Arr) : Arr := arrSub p (scale alpha g)

/-- `momentum` / `nesterov`:
`velocity[layer] = gamma * velocity[layer] + alpha * grad[layer];
model['net_params'][layer] -= velocity[layer]`. -/
def momentumF (gamma alpha : ℝ) (p v g : Arr) : Arr × Arr :=
  let vNew := arrAdd (scale gamma v) (scale alpha g)
  (arrSub p vNew, vNew)

/-- `adagrad`: `cache[k] += grad[k]**2;
model['net_params'][k] -= alpha * grad[k] / (np.sqrt(cache[k]) + c.eps)`. -/
noncomputable def adagradF (alpha : ℝ) (p c g : Arr) : Arr × Arr :=
  let cNew := arrAdd c (arrSq g)
  (arrSub p (arrDiv (scale alpha g) (addConst eps (arrSqrt cNew))), cNew)

/-- `rmsprop`: `cache[k] = util.exp_running_avg(cache[k], grad[k]**2, gamma);
model['net_params'][k] -= alpha * grad[k] / (np.sqrt(cache[k]) + c.eps)`. -/
noncomputable def rmspropF (gamma alpha : ℝ) (p c g : Arr) : Arr × Arr :=
  let cNew := exp_running_avg c (arrSq g) gamma
  (arrSub p (arrDiv (scale alpha g) (addConst eps (arrSqrt cNew))), cNew)

/-- `adam`'s loop body at (1-based) iteration `t`:
`M[k] = exp_running_avg(M[k], grad[k], beta1);
R[k] = exp_running_avg(R[k], grad[k]**2, beta2);
m_k_hat = M[k] / (1 - beta1**t); r_k_hat = R[k] / (1 - beta2**t);
model['net_params'][k] -= alpha * m_k_hat / (np.sqrt(r_k_hat) + c.eps)`. -/
noncomputable def adamF (beta1 beta2 alpha : ℝ) (t : Nat) (p : Arr) (mr : Arr × Arr)
    (g : Arr) : Arr × (Arr × Arr) :=
  let mNew := exp_running_avg mr.1 g beta1
  let rNew := exp_running_avg mr.2 (arrSq g) beta2
  let mHat := divConst (1 - beta1 ^ t) mNew
  let rHat := divConst (1 - beta2 ^ t) rNew
  (arrSub p (arrDiv (scale alpha mHat) (addConst eps (arrSqrt rHat))), (mNew, rNew))

section UpdateLemmas

theorem update0_nil (f : Arr → Arr → Arr) (params : PMap) :
    update0 f params [] = some params := rfl

theorem update0_cons (f : Arr → Arr → Arr) (params : PMap) (kv : String × Arr)
    (rest : PMap) :
    update0 f params (kv :: rest) =
      (lookupP params kv.1).bind (fun p => update0 f (setP params kv.1 (f p kv.2)) rest) := rfl

theorem update1_nil (f : Arr → Arr → Arr → Arr × Arr) (params aux : PMap) :
    update1 f params aux [] = some (params, aux) := rfl

theorem update1_cons (f : Arr → Arr → Arr → Arr × Arr) (params aux : PMap)
    (kv : String × Arr) (rest : PMap) :
    update1 f params aux (kv :: rest) =
      (lookupP aux kv.1).bind (fun a =>
        (lookupP params kv.1).bind (fun p =>
          update1 f (setP params kv.1 (f p a kv.2).1) (setP aux kv.1 (f p a kv.2).2) rest)) := rfl

theorem update2_nil (f : Arr → Arr × Arr → Arr → Arr × (Arr × Arr))
    (params : PMap) (aux : PMap × PMap) :
    update2 f params aux [] = some (params, aux) := rfl

theorem update2_cons (f : Arr → Arr × Arr → Arr → Arr × (Arr × Arr))
    (params : PMap) (aux : PMap × PMap) (kv : String × Arr) (rest : PMap) :
    update2 f params aux (kv :: rest) =
      (lookupP aux.1 kv.1).bind (fun a1 =>
        (lookupP aux.2 kv.1).bind (fun a2 =>
          (lookupP params kv.1).bind (fun p =>
            update2 f (setP params kv.1 (f p (a1, a2) kv.2).1)
              (setP aux.1 kv.1 (f p (a1, a2) kv.2).2.1,
               setP aux.2 kv.1 (f p (a1, a2) kv.2).2.2) rest))) := rfl

/-- Characterization of the stateless update loop: it succeeds when every
gradient key is a parameter key, preserves the key list, applies `f` at each
gradient key, and leaves other keys untouched. -/
theorem update0_spec (f : Arr → Arr → Arr) : ∀ (grad params : PMap),
    (keysP grad).Nodup → (∀ k, k ∈ keysP grad → k ∈ keysP params) →
    ∃ ps, update0 f params grad = some ps ∧
      keysP ps = keysP params ∧
      (∀ k g p, lookupP grad k = some g → lookupP params k = some p →
        lookupP ps k = some (f p g)) ∧
      (∀ k, k ∉ keysP grad → lookupP ps k = lookupP params k) := by
  intro grad
  induction grad with
  | nil =>
    intro params _ _
    exact ⟨params, rfl, rfl, by intro k g p hg _; simp [lookupP] at hg, fun k _ => rfl⟩
  | cons kv rest ih =>
    intro params hnd hsub
    rw [keysP_cons, List.nodup_cons] at hnd
    have hkmem : kv.1 ∈ keysP params :=
      hsub kv.1 (by rw [keysP_cons]; exact List.mem_cons_self _ _)
    obtain ⟨p0, hp0⟩ := Option.isSome_iff_exists.mp ((lookupP_isSome_iff params kv.1).mpr hkmem)
    have hsub1 : ∀ k, k ∈ keysP rest → k ∈ keysP (setP params kv.1 (f p0 kv.2)) := by
      intro k hk
      rw [keysP_setP]
      exact hsub k (by rw [keysP_cons]; exact List.mem_cons_of_mem _ hk)
    obtain ⟨ps, hps, hkeys, hupd, hunch⟩ := ih (setP params kv.1 (f p0 kv.2)) hnd.2 hsub1
    refine ⟨ps, ?_, ?_, ?_, ?_⟩
    · rw [update0_cons, hp0]
      exact hps
    · rw [hkeys, keysP_setP]
    · intro k g p hg hp
      rw [lookupP_cons] at hg
      by_cases h : kv.1 = k
      · rw [if_pos h] at hg
        have hg' : g = kv.2 := (Option.some.inj hg).symm
        have hknotr : k ∉ keysP rest := h ▸ hnd.1
        rw [hunch k hknotr, ← h, lookupP_setP_self params kv.1 _ hkmem]
        have hpp : p = p0 := by
          rw [← h, hp0] at hp
          exact (Option.some.inj hp).symm
        rw [hg', hpp]
      · rw [if_neg h] at hg
        have hp1 : lookupP (setP params kv.1 (f p0 kv.2)) k = some p := by
          rw [lookupP_setP_ne params kv.1 k _ (fun he => h he.symm)]
          exact hp
        exact hupd k g p hg hp1
    · intro k hk
      rw [keysP_cons, List.mem_cons] at hk
      push_neg at hk
      rw [hunch k hk.2, lookupP_setP_ne params kv.1 k _ hk.1]

/-- Characterization of the one-auxiliary-dict update loop. -/
theorem update1_spec (f : Arr → Arr → Arr → Arr × Arr) : ∀ (grad params aux : PMap),
    (keysP grad).Nodup →
    (∀ k, k ∈ keysP grad → k ∈ keysP params) →
    (∀ k, k ∈ keysP grad → k ∈ keysP aux) →
    ∃ ps vs, update1 f params aux grad = some (ps, vs) ∧
      keysP ps = keysP params ∧ keysP vs = keysP aux ∧
      (∀ k g p a, lookupP grad k = some g → lookupP params k = some p →
        lookupP aux k = some a →
        lookupP ps k = some (f p a g).1 ∧ lookupP vs k = some (f p a g).2) ∧
      (∀ k, k ∉ keysP grad →
        lookupP ps k = lookupP params k ∧ lookupP vs k = lookupP aux k) := by
  intro grad
  induction grad with
  | nil =>
    intro params aux _ _ _
    exact ⟨params, aux, rfl, rfl, rfl,
      by intro k g p a hg _ _; simp [lookupP] at hg, fun k _ => ⟨rfl, rfl⟩⟩
  | cons kv rest ih =>
    intro params aux hnd hsubp hsuba
    rw [keysP_cons, List.nodup_cons] at hnd
    have hkp : kv.1 ∈ keysP params :=
      hsubp kv.1 (by rw [keysP_cons]; exact List.mem_cons_self _ _)
    have hka : kv.1 ∈ keysP aux :=
      hsuba kv.1 (by rw [keysP_cons]; exact List.mem_cons_self _ _)
    obtain ⟨p0, hp0⟩ := Option.isSome_iff_exists.mp ((lookupP_isSome_iff params kv.1).mpr hkp)
    obtain ⟨a0, ha0⟩ := Option.isSome_iff_exists.mp ((lookupP_isSome_iff aux kv.1).mpr hka)
    have hsubp1 : ∀ k, k ∈ keysP rest → k ∈ keysP (setP params kv.1 (f p0 a0 kv.2).1) := by
      intro k hk
      rw [keysP_setP]
      exact hsubp k (by rw [keysP_cons]; exact List.mem_cons_of_mem _ hk)
    have hsuba1 : ∀ k, k ∈ keysP rest → k ∈ keysP (setP aux kv.1 (f p0 a0 kv.2).2) := by
      intro k hk
      rw [keysP_setP]
      exact hsuba k (by rw [keysP_cons]; exact List.mem_cons_of_mem _ hk)
    obtain ⟨ps, vs, hps, hkeysp, hkeysa, hupd, hunch⟩ :=
      ih (setP params kv.1 (f p0 a0 kv.2).1) (setP aux kv.1 (f p0 a0 kv.2).2)
        hnd.2 hsubp1 hsuba1
    refine ⟨ps, vs, ?_, ?_, ?_, ?_, ?_⟩
    · rw [update1_cons, ha0, hp0]
      exact hps
    · rw [hkeysp, keysP_setP]
    · rw [hkeysa, keysP_setP]
    · intro k g p a hg hp ha
      rw [lookupP_cons] at hg
      by_cases h : kv.1 = k
      · rw [if_pos h] at hg
        have hg' : g = kv.2 := (Option.some.inj hg).symm
        have hknotr : k ∉ keysP rest := h ▸ hnd.1
        have hpp : p = p0 := by
          rw [← h, hp0] at hp
          exact (Option.some.inj hp).symm
        have haa : a = a0 := by
          rw [← h, ha0] at ha
          exact (Option.some.inj ha).symm
        obtain ⟨hu1, hu2⟩ := hunch k hknotr
        constructor
        · rw [hu1, ← h, lookupP_setP_self params kv.1 _ hkp, hg', hpp, haa]
        · rw [hu2, ← h, lookupP_setP_self aux kv.1 _ hka, hg', hpp, haa]
      · rw [if_neg h] at hg
        have hp1 : lookupP (setP params kv.1 (f p0 a0 kv.2).1) k = some p := by
          rw [lookupP_setP_ne params kv.1 k _ (fun he => h he.symm)]
          exact hp
        have ha1 : lookupP (setP aux kv.1 (f p0 a0 kv.2).2) k = some a := by
          rw [lookupP_setP_ne aux kv.1 k _ (fun he => h he.symm)]
          exact ha
        exact hupd k g p a hg hp1 ha1
    · intro k hk
      rw [keysP_cons, List.mem_cons] at hk
      push_neg at hk
      obtain ⟨hu1, hu2⟩ := hunch k hk.2
      constructor
      · rw [hu1, lookupP_setP_ne params kv.1 k _ hk.1]
      · rw [hu2, lookupP_setP_ne aux kv.1 k _ hk.1]

/-- Characterization of the two-auxiliary-dict update loop (`adam`). -/
theorem update2_spec (f : Arr → Arr × Arr → Arr → Arr × (Arr × Arr)) :
    ∀ (grad params auxM auxR : PMap),
    (keysP grad).Nodup →
    (∀ k, k ∈ keysP grad → k ∈ keysP params) →
    (∀ k, k ∈ keysP grad → k ∈ keysP auxM) →
    (∀ k, k ∈ keysP grad → k ∈ keysP auxR) →
    ∃ ps ms rs, update2 f params (auxM, auxR) grad = some (ps, (ms, rs)) ∧
      keysP ps = keysP params ∧ keysP ms = keysP auxM ∧ keysP rs = keysP auxR ∧
      (∀ k g p m r, lookupP grad k = some g → lookupP params k = some p →
        lookupP auxM k = some m → lookupP auxR k = some r →
        lookupP ps k = some (f p (m, r) g).1 ∧
        lookupP ms k = some (f p (m, r) g).2.1 ∧
        lookupP rs k = some (f p (m, r) g).2.2) ∧
      (∀ k, k ∉ keysP grad →
        lookupP ps k = lookupP params k ∧ lookupP ms k = lookupP auxM k ∧
        lookupP rs k = lookupP auxR k) := by
  intro grad
  induction grad with
  | nil =>
    intro params auxM auxR _ _ _ _
    exact ⟨params, auxM, auxR, rfl, rfl, rfl, rfl,
      by intro k g p m r hg _ _ _; simp [lookupP] at hg, fun k _ => ⟨rfl, rfl, rfl⟩⟩
  | cons kv rest ih =>
    intro params auxM auxR hnd hsubp hsubm hsubr
    rw [keysP_cons, List.nodup_cons] at hnd
    have hkp : kv.1 ∈ keysP params :=
      hsubp kv.1 (by rw [keysP_cons]; exact List.mem_cons_self _ _)
    have hkm : kv.1 ∈ keysP auxM :=
      hsubm kv.1 (by rw [keysP_cons]; exact List.mem_cons_self _ _)
    have hkr : kv.1 ∈ keysP auxR :=
      hsubr kv.1 (by rw [keysP_cons]; exact List.mem_cons_self _ _)
    obtain ⟨p0, hp0⟩ := Option.isSome_iff_exists.mp ((lookupP_isSome_iff params kv.1).mpr hkp)
    obtain ⟨m0, hm0⟩ := Option.isSome_iff_exists.mp ((lookupP_isSome_iff auxM kv.1).mpr hkm)
    obtain ⟨r0, hr0⟩ := Option.isSome_iff_exists.mp ((lookupP_isSome_iff auxR kv.1).mpr hkr)
    have hsubp1 : ∀ k, k ∈ keysP rest →
        k ∈ keysP (setP params kv.1 (f p0 (m0, r0) kv.2).1) := by
      intro k hk
      rw [keysP_setP]
      exact hsubp k (by rw [keysP_cons]; exact List.mem_cons_of_mem _ hk)
    have hsubm1 : ∀ k, k ∈ keysP rest →
        k ∈ keysP (setP auxM kv.1 (f p0 (m0, r0) kv.2).2.1) := by
      intro k hk
      rw [keysP_setP]
      exact hsubm k (by rw [keysP_cons]; exact List.mem_cons_of_mem _ hk)
    have hsubr1 : ∀ k, k ∈ keysP rest →
        k ∈ keysP (setP auxR kv.1 (f p0 (m0, r0) kv.2).2.2) := by
      intro k hk
      rw [keysP_setP]
      exact hsubr k (by rw [keysP_cons]; exact List.mem_cons_of_mem _ hk)
    obtain ⟨ps, ms, rs, hps, hkeysp, hkeysm, hkeysr, hupd, hunch⟩ :=
      ih (setP params kv.1 (f p0 (m0, r0) kv.2).1)
        (setP auxM kv.1 (f p0 (m0, r0) kv.2).2.1)
        (setP auxR kv.1 (f p0 (m0, r0) kv.2).2.2)
        hnd.2 hsubp1 hsubm1 hsubr1
    refine ⟨ps, ms, rs, ?_, ?_, ?_, ?_, ?_, ?_⟩
    · rw [update2_cons, hm0, hr0, hp0]
      exact hps
    · rw [hkeysp, keysP_setP]
    · rw [hkeysm, keysP_setP]
    · rw [hkeysr, keysP_setP]
    · intro k g p m r hg hp hm hr
      rw [lookupP_cons] at hg
      by_cases h : kv.1 = k
      · rw [if_pos h] at hg
        have hg' : g = kv.2 := (Option.some.inj hg).symm
        have hknotr : k ∉ keysP rest := h ▸ hnd.1
        have hpp : p = p0 := by
          rw [← h, hp0] at hp
          exact (Option.some.inj hp).symm
        have hmm : m = m0 := by
          rw [← h, hm0] at hm
          exact (Option.some.inj hm).symm
        have hrr : r = r0 := by
          rw [← h, hr0] at hr
          exact (Option.some.inj hr).symm
        obtain ⟨hu1, hu2, hu3⟩ := hunch k hknotr
        refine ⟨?_, ?_, ?_⟩
        · rw [hu1, ← h, lookupP_setP_self params kv.1 _ hkp, hg', hpp, hmm, hrr]
        · rw [hu2, ← h, lookupP_setP_self auxM kv.1 _ hkm, hg', hpp, hmm, hrr]
        · rw [hu3, ← h, lookupP_setP_self auxR kv.1 _ hkr, hg', hpp, hmm, hrr]
      · rw [if_neg h] at hg
        have hp1 : lookupP (setP params kv.1 (f p0 (m0, r0) kv.2).1) k = some p := by
          rw [lookupP_setP_ne params kv.1 k _ (fun he => h he.symm)]
          exact hp
        have hm1 : lookupP (setP auxM kv.1 (f p0 (m0, r0) kv.2).2.1) k = some m := by
          rw [lookupP_setP_ne auxM kv.1 k _ (fun he => h he.symm)]
          exact hm
        have hr1 : lookupP (setP auxR kv.1 (f p0 (m0, r0) kv.2).2.2) k = some r := by
          rw [lookupP_setP_ne auxR kv.1 k _ (fun he => h he.symm)]
          exact hr
        exact hupd k g p m r hg hp1 hm1 hr1
    · intro k hk
      rw [keysP_cons, List.mem_cons] at hk
      push_neg at hk
      obtain ⟨hu1, hu2, hu3⟩ := hunch k hk.2
      refine ⟨?_, ?_, ?_⟩
      · rw [hu1, lookupP_setP_ne params kv.1 k _ hk.1]
      · rw [hu2, lookupP_setP_ne auxM kv.1 k _ hk.1]
      · rw [hu3, lookupP_setP_ne auxR kv.1 k _ hk.1]

end UpdateLemmas

section ArrLemmas

/-- All entries of the array are zero (an "all-zero gradient"). -/
def isZeroArr (x : Arr) : Prop := ∀ t ∈ x, t = 0

theorem length_scale (a : ℝ) (x : Arr) : (scale a x).length = x.length := by
  simp [scale]

theorem length_arrAdd (x y : Arr) : (arrAdd x y).length = min x.length y.length := by
  simp [arrAdd]

theorem length_arrSq (x : Arr) : (arrSq x).length = x.length := by
  simp [arrSq]

theorem length_arrSqrt (x : Arr) : (arrSqrt x).length = x.length := by
  simp [arrSqrt]

theorem length_addConst (e : ℝ) (x : Arr) : (addConst e x).length = x.length := by
  simp [addConst]

theorem length_divConst (s : ℝ) (x : Arr) : (divConst s x).length = x.length := by
  simp [divConst]

theorem length_arrDiv (x y : Arr) : (arrDiv x y).length = min x.length y.length := by
  simp [arrDiv]

theorem length_exp_running_avg (o s : Arr) (g : ℝ) :
    (exp_running_avg o s g).length = min o.length s.length := by
  simp [exp_running_avg, length_arrAdd, length_scale]

theorem isZeroArr_scale (a : ℝ) (x : Arr) (h : isZeroArr x) : isZeroArr (scale a x) := by
  intro t ht
  simp only [scale, List.mem_map] at ht
  obtain ⟨s, hs, hst⟩ := ht
  rw [← hst, h s hs, mul_zero]

theorem isZeroArr_divConst (s : ℝ) (x : Arr) (h : isZeroArr x) :
    isZeroArr (divConst s x) := by
  intro t ht
  simp only [divConst, List.mem_map] at ht
  obtain ⟨u, hu, hut⟩ := ht
  rw [← hut, h u hu, zero_div]

theorem isZeroArr_arrAdd (x : Arr) : ∀ (y : Arr), isZeroArr x → isZeroArr y →
    isZeroArr (arrAdd x y) := by
  induction x with
  | nil => intro y _ _ t ht; simp [arrAdd] at ht
  | cons xh xt ih =>
    intro y hx hy t ht
    cases y with
    | nil => simp [arrAdd] at ht
    | cons yh yt =>
      rcases List.mem_cons.mp ht with h | h
      · rw [h]
        show xh + yh = 0
        rw [hx xh (List.mem_cons_self _ _), hy yh (List.mem_cons_self _ _), add_zero]
      · exact ih yt (fun s hs => hx s (List.mem_cons_of_mem _ hs))
          (fun s hs => hy s (List.mem_cons_of_mem _ hs)) t h

theorem isZeroArr_arrDiv_left (x : Arr) : ∀ (y : Arr), isZeroArr x →
    isZeroArr (arrDiv x y) := by
  induction x with
  | nil => intro y _ t ht; simp [arrDiv] at ht
  | cons xh xt ih =>
    intro y hx t ht
    cases y with
    | nil => simp [arrDiv] at ht
    | cons yh yt =>
      rcases List.mem_cons.mp ht with h | h
      · rw [h]
        show xh / yh = 0
        rw [hx xh (List.mem_cons_self _ _), zero_div]
      · exact ih yt (fun s hs => hx s (List.mem_cons_of_mem _ hs)) t h

/-- Subtracting an all-zero array (of no smaller length) leaves the array
unchanged: `p -= 0`. -/
theorem arrSub_zero_right (p : Arr) : ∀ (z : Arr), isZeroArr z →
    p.length ≤ z.length → arrSub p z = p := by
  induction p with
  | nil => intro z _ _; rfl
  | cons ph pt ih =>
    intro z hz hl
    cases z with
    | nil => simp at hl
    | cons zh zt =>
      have h0 : zh = 0 := hz zh (List.mem_cons_self _ _)
      show (ph - zh) :: arrSub pt zt = ph :: pt
      rw [h0, sub_zero, ih zt (fun s hs => hz s (List.mem_cons_of_mem _ hs))
        (Nat.succ_le_succ_iff.mp hl)]

theorem zerosLike_arrSq (g : Arr) : zerosLike (arrSq g) = zerosLike g := by
  unfold zerosLike arrSq
  rw [List.map_map]
  rfl

theorem isZeroArr_zerosLike (x : Arr) : isZeroArr (zerosLike x) := by
  intro t ht
  simp only [zerosLike, List.mem_map] at ht
  obtain ⟨_, _, h⟩ := ht
  exact h.symm

theorem length_zerosLike (x : Arr) : (zerosLike x).length = x.length := by
  simp [zerosLike]

theorem keysP_zerosLikeP (m : PMap) : keysP (zerosLikeP m) = keysP m := by
  simp [keysP, zerosLikeP]

theorem arrSub_scale (alpha : ℝ) (p g : Arr) :
    arrSub p (scale alpha g) = List.zipWith (fun s t => s - alpha * t) p g := by
  rw [arrSub, scale, List.zipWith_map_right]

end ArrLemmas

/-! ### Models, the gradient oracle, the minibatch sampler, and the loop -/

/-- The model dict `{'net_params': ..., 'caches': ...}`.  `addr` is the
identity of the model dict object itself, `cachesAddr` the identity of the
dict object `model['caches']`, and `caches` its (shallow) contents — the
contents type `C` is opaque to the optimizers. -/
structure Model (C : Type) where
  addr : Nat
  net_params : PMap
  cachesAddr : Nat
  caches : C

/-- A minibatch `(X_mini, y_mini)`. The training data never meets the
real-valued parameters, so its scalars are rationals (labels are integers
after the `astype(int)` coercion in `shuffle`). -/
abbrev MB := List (List ℚ) × List ℤ

/-- The external gradient oracle `nn.train_step(model, X_mini, y_mini)`
returning `(grad, loss)`, modelled as an opaque pure function; `L` is the
loss type. -/
abbrev TrainStep (C L : Type) := Model C → MB → PMap × L

/-- Truncation toward zero, as numpy's `astype(int)` casts floats to ints. -/
def truncInt (q : ℚ) : ℤ := Int.tdiv q.num (q.den : ℤ)

/-- `np.column_stack((X, y))` builds a fresh array whose rows are the feature
rows with the label appended. -/
def stackRows (X : List (List ℚ)) (y : List ℚ) : List (List ℚ) :=
  List.zipWith (fun r v => r ++ [v]) X y

/-- Applying a permutation (given as the list of source indices) to the rows,
as `np.random.shuffle` does with a uniformly random permutation. -/
def permuteRows {α : Type} (perm : List Nat) (Z : List α) : List α :=
  perm.filterMap (fun i => Z[i]?)

/-- `shuffle(X, y)`: stack the columns, permute the rows of the fresh stacked
array, then return `Z[:, :-1]` and `Z[:, -1].astype(int)`. -/
def shuffle (X : List (List ℚ)) (y : List ℚ) (perm : List Nat) :
    List (List ℚ) × List ℤ :=
  let Z := permuteRows perm (stackRows X y)
  (Z.map List.dropLast, Z.map (fun r => truncInt (r.getLastD 0)))

/-- `get_minibatch(X, y, minibatch_size)`: shuffle, then slice
`X[i:i+minibatch_size]` for `i in range(0, X.shape[0], minibatch_size)`.
Python's `range` with step 0 raises `ValueError`, hence `none` for size 0. -/
def get_minibatch (X : List (List ℚ)) (y : List ℚ) (minibatch_size : Nat)
    (perm : List Nat) : Option (List MB) :=
  if minibatch_size = 0 then none
  else
    let s := shuffle X y perm
    some ((List.range ((s.1.length + minibatch_size - 1) / minibatch_size)).map
      (fun j => ((s.1.drop (j * minibatch_size)).take minibatch_size,
                 (s.2.drop (j * minibatch_size)).take minibatch_size)))

section Steps

variable {C L : Type}

/-- One `sgd` iteration body: call the oracle on the model, then run the
update loop. -/
def sgdStep (ts : TrainStep C L) (alpha : ℝ) :
    Nat → Model C → Unit → MB → Option ((Model C × Unit) × L) :=
  fun _ m _ mb =>
    let gl := ts m mb
    (update0 (sgdF alpha) m.net_params gl.1).map
      (fun ps => (({m with net_params := ps}, ()), gl.2))

/-- One `momentum` iteration body. -/
def momentumStep (ts : TrainStep C L) (gamma alpha : ℝ) :
    Nat → Model C → PMap → MB → Option ((Model C × PMap) × L) :=
  fun _ m vel mb =>
    let gl := ts m mb
    (update1 (momentumF gamma alpha) m.net_params vel gl.1).map
      (fun pv => (({m with net_params := pv.1}, pv.2), gl.2))

/-- `model_ahead_net = {k: v + gamma * velocity[k] for k, v in
model['net_params'].items()}`. -/
def lookaheadParams (gamma : ℝ) : PMap → PMap → Option PMap
  | [], _ => some []
  | kv :: rest, vel => do
    let v ← lookupP vel kv.1
    let tail ← lookaheadParams gamma rest vel
    some ((kv.1, arrAdd kv.2 (scale gamma v)) :: tail)

/-- `model_ahead = {'net_params': model_ahead_net, 'caches':
model['caches'].copy()}`: the caches dict is shallow-copied by
`dict.copy()` — a NEW dict object (fresh address `al`) holding the same
entries `m.caches`; the model dict literal is itself a fresh object
(address `al + 1`). -/
def nesterovAhead (gamma : ℝ) (m : Model C) (vel : PMap) (al : Nat) :
    Option (Model C) :=
  (lookaheadParams gamma m.net_params vel).map
    (fun ps => { addr := al + 1, net_params := ps, cachesAddr := al,
                 caches := m.caches })

/-- One `nesterov` iteration body: evaluate the oracle at the lookahead
model, then apply the momentum update to the real parameters.  The auxiliary
state carries the velocity dict and the allocation counter for fresh
addresses. -/
def nesterovStep (ts : TrainStep C L) (gamma alpha : ℝ) :
    Nat → Model C → PMap × Nat → MB → Option ((Model C × (PMap × Nat)) × L) :=
  fun _ m vs mb => do
    let ahead ← nesterovAhead gamma m vs.1 vs.2
    let gl := ts ahead mb
    let pv ← update1 (momentumF gamma alpha) m.net_params vs.1 gl.1
    some (({m with net_params := pv.1}, (pv.2, vs.2 + 2)), gl.2)

/-- One `adagrad` iteration body. -/
noncomputable def adagradStep (ts : TrainStep C L) (alpha : ℝ) :
    Nat → Model C → PMap → MB → Option ((Model C × PMap) × L) :=
  fun _ m cache mb =>
    let gl := ts m mb
    (update1 (adagradF alpha) m.net_params cache gl.1).map
      (fun pc => (({m with net_params := pc.1}, pc.2), gl.2))

/-- One `rmsprop` iteration body. -/
noncomputable def rmspropStep (ts : TrainStep C L) (gamma alpha : ℝ) :
    Nat → Model C → PMap → MB → Option ((Model C × PMap) × L) :=
  fun _ m cache mb =>
    let gl := ts m mb
    (update1 (rmspropF gamma alpha) m.net_params cache gl.1).map
      (fun pc => (({m with net_params := pc.1}, pc.2), gl.2))

/-- One `adam` iteration body at (1-based) iteration `t` (`t = iter`). -/
noncomputable def adamStep (ts : TrainStep C L) (beta1 beta2 alpha : ℝ) :
    Nat → Model C → PMap × PMap → MB → Option ((Model C × (PMap × PMap)) × L) :=
  fun t m mr mb =>
    let gl := ts m mb
    (update2 (adamF beta1 beta2 alpha t) m.net_params mr gl.1).map
      (fun pmr => (({m with net_params := pmr.1}, pmr.2), gl.2))

/-- The training loop `for iter in range(1, n_iter + 1)` shared by the six
optimizers.  `t` is the current 1-based iteration, `r` the iterations left.
`idxs t % mbs.length` models `idx = np.random.randint(0, len(minibatches))`
(always in range when the partition is nonempty; an empty partition makes
`randint(0, 0)` raise, modelled by the failing list index).  `log`
accumulates the `print`ed lines; `trace` is a ghost record of
`(iteration, chosen index, minibatch, loss)` per iteration. -/
def runIters (step : Nat → Model C → S → MB → Option ((Model C × S) × L))
    (mbs : List MB) (idxs : Nat → Nat) (print_after : Nat)
    (showL : L → String) :
    Nat → Nat → Model C → S → List String → List (Nat × Nat × MB × L) →
    Option (Model C × S × List String × List (Nat × Nat × MB × L))
  | _, 0, m, s, log, tr => some (m, s, log, tr)
  | t, r + 1, m, s, log, tr => do
    let mb ← mbs[idxs t % mbs.length]?
    let msl ← step t m s mb
    runIters step mbs idxs print_after showL (t + 1) r msl.1.1 msl.1.2
      (if t % print_after = 0 then
        log ++ ["Iter-" ++ toString t ++ " loss: " ++ showL msl.2]
      else log)
      (tr ++ [(t, idxs t % mbs.length, mb, msl.2)])

/-- `sgd(model, X_train, y_train, alpha=1e-3, mb_size=256, n_iter=2000,
print_after=100)`.  Returns the model together with the printed lines and
the ghost trace. -/
def sgd (ts : TrainStep C L) (showL : L → String) (model : Model C)
    (X_train : List (List ℚ)) (y_train : List ℚ) (alpha : ℝ)
    (mb_size n_iter print_after : Nat) (perm : List Nat) (idxs : Nat → Nat) :
    Option (Model C × List String × List (Nat × Nat × MB × L)) := do
  let minibatches ← get_minibatch X_train y_train mb_size perm
  let out ← runIters (sgdStep ts alpha) minibatches idxs print_after showL
    1 n_iter model () [] []
  some (out.1, out.2.2)

/-- `momentum(...)` — `velocity = {k: np.zeros_like(v) ...}; gamma = .9`. -/
def momentum (ts : TrainStep C L) (showL : L → String) (model : Model C)
    (X_train : List (List ℚ)) (y_train : List ℚ) (alpha : ℝ)
    (mb_size n_iter print_after : Nat) (perm : List Nat) (idxs : Nat → Nat) :
    Option (Model C × List String × List (Nat × Nat × MB × L)) := do
  let velocity := zerosLikeP model.net_params
  let minibatches ← get_minibatch X_train y_train mb_size perm
  let out ← runIters (momentumStep ts 0.9 alpha) minibatches idxs print_after
    showL 1 n_iter model velocity [] []
  some (out.1, out.2.2)

/-- `nesterov(...)` — like momentum, but the oracle is evaluated at the
lookahead model.  `al0` is the allocation counter for fresh dict addresses
(each iteration allocates the caches copy and the ahead-model dict). -/
def nesterov (ts : TrainStep C L) (showL : L → String) (model : Model C)
    (X_train : List (List ℚ)) (y_train : List ℚ) (alpha : ℝ)
    (mb_size n_iter print_after : Nat) (perm : List Nat) (idxs : Nat → Nat)
    (al0 : Nat) :
    Option (Model C × List String × List (Nat × Nat × MB × L)) := do
  let velocity := zerosLikeP model.net_params
  let minibatches ← get_minibatch X_train y_train mb_size perm
  let out ← runIters (nesterovStep ts 0.9 alpha) minibatches idxs print_after
    showL 1 n_iter model (velocity, al0) [] []
  some (out.1, out.2.2)

/-- `adagrad(...)` — `cache = {k: np.zeros_like(v) ...}`. -/
noncomputable def adagrad (ts : TrainStep C L) (showL : L → String)
    (model : Model C) (X_train : List (List ℚ)) (y_train : List ℚ) (alpha : ℝ)
    (mb_size n_iter print_after : Nat) (perm : List Nat) (idxs : Nat → Nat) :
    Option (Model C × List String × List (Nat × Nat × MB × L)) := do
  let cache := zerosLikeP model.net_params
  let minibatches ← get_minibatch X_train y_train mb_size perm
  let out ← runIters (adagradStep ts alpha) minibatches idxs print_after showL
    1 n_iter model cache [] []
  some (out.1, out.2.2)

/-- `rmsprop(...)` — `cache = zeros; gamma = .9`. -/
noncomputable def rmsprop (ts : TrainStep C L) (showL : L → String)
    (model : Model C) (X_train : List (List ℚ)) (y_train : List ℚ) (alpha : ℝ)
    (mb_size n_iter print_after : Nat) (perm : List Nat) (idxs : Nat → Nat) :
    Option (Model C × List String × List (Nat × Nat × MB × L)) := do
  let cache := zerosLikeP model.net_params
  let minibatches ← get_minibatch X_train y_train mb_size perm
  let out ← runIters (rmspropStep ts 0.9 alpha) minibatches idxs print_after
    showL 1 n_iter model cache [] []
  some (out.1, out.2.2)

/-- `adam(...)` — `M = zeros; R = zeros; beta1 = .9; beta2 = .999`. -/
noncomputable def adam (ts : TrainStep C L) (showL : L → String)
    (model : Model C) (X_train : List (List ℚ)) (y_train : List ℚ) (alpha : ℝ)
    (mb_size n_iter print_after : Nat) (perm : List Nat) (idxs : Nat → Nat) :
    Option (Model C × List String × List (Nat × Nat × MB × L)) := do
  let moments := (zerosLikeP model.net_params, zerosLikeP model.net_params)
  let minibatches ← get_minibatch X_train y_train mb_size perm
  let out ← runIters (adamStep ts 0.9 0.999 alpha) minibatches idxs print_after
    showL 1 n_iter model moments [] []
  some (out.1, out.2.2)

end Steps

section StepEquations

variable {C L : Type}

theorem sgdStep_eq (ts : TrainStep C L) (alpha : ℝ) (t : Nat) (m : Model C)
    (u : Unit) (mb : MB) :
    sgdStep ts alpha t m u mb =
      (update0 (sgdF alpha) m.net_params (ts m mb).1).map
        (fun ps => (({m with net_params := ps}, ()), (ts m mb).2)) := rfl

theorem momentumStep_eq (ts : TrainStep C L) (gamma alpha : ℝ) (t : Nat)
    (m : Model C) (vel : PMap) (mb : MB) :
    momentumStep ts gamma alpha t m vel mb =
      (update1 (momentumF gamma alpha) m.net_params vel (ts m mb).1).map
        (fun pv => (({m with net_params := pv.1}, pv.2), (ts m mb).2)) := rfl

theorem nesterovStep_eq (ts : TrainStep C L) (gamma alpha : ℝ) (t : Nat)
    (m : Model C) (vs : PMap × Nat) (mb : MB) :
    nesterovStep ts gamma alpha t m vs mb =
      (nesterovAhead gamma m vs.1 vs.2).bind (fun ahead =>
        (update1 (momentumF gamma alpha) m.net_params vs.1 (ts ahead mb).1).bind
          (fun pv =>
            some (({m with net_params := pv.1}, (pv.2, vs.2 + 2)),
              (ts ahead mb).2))) := rfl

theorem adagradStep_eq (ts : TrainStep C L) (alpha : ℝ) (t : Nat) (m : Model C)
    (cache : PMap) (mb : MB) :
    adagradStep ts alpha t m cache mb =
      (update1 (adagradF alpha) m.net_params cache (ts m mb).1).map
        (fun pc => (({m with net_params := pc.1}, pc.2), (ts m mb).2)) := rfl

theorem rmspropStep_eq (ts : TrainStep C L) (gamma alpha : ℝ) (t : Nat)
    (m : Model C) (cache : PMap) (mb : MB) :
    rmspropStep ts gamma alpha t m cache mb =
      (update1 (rmspropF gamma alpha) m.net_params cache (ts m mb).1).map
        (fun pc => (({m with net_params := pc.1}, pc.2), (ts m mb).2)) := rfl

theorem adamStep_eq (ts : TrainStep C L) (beta1 beta2 alpha : ℝ) (t : Nat)
    (m : Model C) (mr : PMap × PMap) (mb : MB) :
    adamStep ts beta1 beta2 alpha t m mr mb =
      (update2 (adamF beta1 beta2 alpha t) m.net_params mr (ts m mb).1).map
        (fun pmr => (({m with net_params := pmr.1}, pmr.2), (ts m mb).2)) := rfl

end StepEquations

/-! ### Claim C4: the sgd update formula -/

/-- **C4.** One sgd update step applied to a parameter with known value `p0`,
gradient `g`, and learning rate `alpha` yields exactly `p0 - alpha*g`
(element-wise) for every parameter key present in the gradient mapping (and
leaves keys absent from the gradient unchanged). -/
theorem sgd_update_formula (alpha : ℝ) (params grad : PMap)
    (hnd : (keysP grad).Nodup)
    (hsub : ∀ k, k ∈ keysP grad → k ∈ keysP params) :
    ∃ ps, update0 (sgdF alpha) params grad = some ps ∧
      (∀ k g p0, lookupP grad k = some g → lookupP params k = some p0 →
        lookupP ps k = some (List.zipWith (fun s t => s - alpha * t) p0 g)) ∧
      (∀ k, k ∉ keysP grad → lookupP ps k = lookupP params k) := by
  obtain ⟨ps, hps, _, hupd, hunch⟩ := update0_spec (sgdF alpha) grad params hnd hsub
  refine ⟨ps, hps, ?_, hunch⟩
  intro k g p0 hg hp
  rw [hupd k g p0 hg hp]
  show some (arrSub p0 (scale alpha g)) = _
  rw [arrSub_scale]

/-- Witness for C4 at the concrete input `p0 = [10, 4]`, `g = [2, 6]`,
`alpha = 1/2`. -/
theorem sgd_update_formula_witness :
    ∃ ps, update0 (sgdF (1/2)) [("W", [(10:ℝ), 4])] [("W", [(2:ℝ), 6])] = some ps ∧
      (∀ k g p0, lookupP [("W", [(2:ℝ), 6])] k = some g →
        lookupP [("W", [(10:ℝ), 4])] k = some p0 →
        lookupP ps k = some (List.zipWith (fun s t => s - (1/2 : ℝ) * t) p0 g)) ∧
      (∀ k, k ∉ keysP [("W", [(2:ℝ), 6])] →
        lookupP ps k = lookupP [("W", [(10:ℝ), 4])] k) :=
  sgd_update_formula (1/2) [("W", [(10:ℝ), 4])] [("W", [(2:ℝ), 6])]
    (by simp [keysP]) (fun k h => h)

/-! ### Claim C2: the adam update formulas -/

/-- Bias correction at `t = 1` cancels the `(1-beta)` averaging weight
exactly when the moment starts at zero. -/
theorem divConst_exp_running_avg_zero (beta : ℝ) (hb : beta ≠ 1) (g : Arr) :
    divConst (1 - beta ^ (1:Nat)) (exp_running_avg (zerosLike g) g beta) = g := by
  induction g with
  | nil => rfl
  | cons x xs ih =>
    have h1 : (1:ℝ) - beta ≠ 0 := sub_ne_zero.mpr (fun h => hb h.symm)
    show ((beta * 0 + (1 - beta) * x) / (1 - beta ^ (1:Nat))) ::
      divConst (1 - beta ^ (1:Nat)) (exp_running_avg (zerosLike xs) xs beta) = x :: xs
    rw [ih, pow_one, mul_zero, zero_add, mul_div_cancel_left₀ x h1]

/-- **C2.** Each adam iteration updates, per key, `M = beta1*M + (1-beta1)*g`
and `R = beta2*R + (1-beta2)*g**2` (beta1 = 0.9, beta2 = 0.999), forms
bias-corrected `M_hat = M/(1-beta1**t)`, `R_hat = R/(1-beta2**t)` with `t`
the 1-based iteration counter, and sets
`param -= alpha*M_hat/(sqrt(R_hat)+eps)`; and starting from zero moments, at
`t = 1` the bias-corrected estimates are exactly `M_hat = g` and
`R_hat = g**2`. -/
theorem adam_update_formula (alpha : ℝ) (t : Nat) (params auxM auxR grad : PMap)
    (hnd : (keysP grad).Nodup)
    (hsubp : ∀ k, k ∈ keysP grad → k ∈ keysP params)
    (hsubm : ∀ k, k ∈ keysP grad → k ∈ keysP auxM)
    (hsubr : ∀ k, k ∈ keysP grad → k ∈ keysP auxR) :
    (∃ ps ms rs, update2 (adamF 0.9 0.999 alpha t) params (auxM, auxR) grad
        = some (ps, (ms, rs)) ∧
      ∀ k g p m r, lookupP grad k = some g → lookupP params k = some p →
        lookupP auxM k = some m → lookupP auxR k = some r →
        lookupP ms k = some (arrAdd (scale 0.9 m) (scale (1 - 0.9) g)) ∧
        lookupP rs k = some (arrAdd (scale 0.999 r) (scale (1 - 0.999) (arrSq g))) ∧
        lookupP ps k = some (arrSub p (arrDiv
          (scale alpha (divConst (1 - (0.9:ℝ) ^ t)
            (arrAdd (scale 0.9 m) (scale (1 - 0.9) g))))
          (addConst eps (arrSqrt (divConst (1 - (0.999:ℝ) ^ t)
            (arrAdd (scale 0.999 r) (scale (1 - 0.999) (arrSq g))))))))) ∧
    (∀ g : Arr,
      divConst (1 - (0.9:ℝ) ^ (1:Nat)) (exp_running_avg (zerosLike g) g 0.9) = g ∧
      divConst (1 - (0.999:ℝ) ^ (1:Nat))
        (exp_running_avg (zerosLike g) (arrSq g) 0.999) = arrSq g) := by
  constructor
  · obtain ⟨ps, ms, rs, hps, _, _, _, hupd, _⟩ :=
      update2_spec (adamF 0.9 0.999 alpha t) grad params auxM auxR hnd hsubp hsubm hsubr
    refine ⟨ps, ms, rs, hps, ?_⟩
    intro k g p m r hg hp hm hr
    obtain ⟨h1, h2, h3⟩ := hupd k g p m r hg hp hm hr
    refine ⟨?_, ?_, ?_⟩
    · rw [h2]; rfl
    · rw [h3]; rfl
    · rw [h1]; rfl
  · intro g
    refine ⟨divConst_exp_running_avg_zero 0.9 (by norm_num) g, ?_⟩
    have h := divConst_exp_running_avg_zero 0.999 (by norm_num) (arrSq g)
    rwa [zerosLike_arrSq] at h

/-- Witness for C2 at a concrete input (one key, `g = [2]`, `p = [1]`,
`M = R = [0]`, `t = 1`, `alpha = 1`). -/
theorem adam_update_formula_witness :
    (∃ ps ms rs, update2 (adamF 0.9 0.999 1 1) [("W", [(1:ℝ)])]
        ([("W", [(0:ℝ)])], [("W", [(0:ℝ)])]) [("W", [(2:ℝ)])]
        = some (ps, (ms, rs)) ∧
      ∀ k g p m r, lookupP [("W", [(2:ℝ)])] k = some g →
        lookupP [("W", [(1:ℝ)])] k = some p →
        lookupP [("W", [(0:ℝ)])] k = some m → lookupP [("W", [(0:ℝ)])] k = some r →
        lookupP ms k = some (arrAdd (scale 0.9 m) (scale (1 - 0.9) g)) ∧
        lookupP rs k = some (arrAdd (scale 0.999 r) (scale (1 - 0.999) (arrSq g))) ∧
        lookupP ps k = some (arrSub p (arrDiv
          (scale 1 (divConst (1 - (0.9:ℝ) ^ (1:Nat))
            (arrAdd (scale 0.9 m) (scale (1 - 0.9) g))))
          (addConst eps (arrSqrt (divConst (1 - (0.999:ℝ) ^ (1:Nat))
            (arrAdd (scale 0.999 r) (scale (1 - 0.999) (arrSq g))))))))) ∧
    (∀ g : Arr,
      divConst (1 - (0.9:ℝ) ^ (1:Nat)) (exp_running_avg (zerosLike g) g 0.9) = g ∧
      divConst (1 - (0.999:ℝ) ^ (1:Nat))
        (exp_running_avg (zerosLike g) (arrSq g) 0.999) = arrSq g) :=
  adam_update_formula 1 1 [("W", [(1:ℝ)])] [("W", [(0:ℝ)])] [("W", [(0:ℝ)])]
    [("W", [(2:ℝ)])] (by simp [keysP]) (fun k h => h) (fun k h => h) (fun k h => h)

/-! ### Claim C3: zero gradients -/

theorem isZeroArr_exp_running_avg (o s : Arr) (g : ℝ)
    (ho : isZeroArr o) (hs : isZeroArr s) : isZeroArr (exp_running_avg o s g) :=
  isZeroArr_arrAdd _ _ (isZeroArr_scale g o ho) (isZeroArr_scale (1 - g) s hs)

/-- With a zero gradient the sgd update term vanishes. -/
theorem sgdF_zero (alpha : ℝ) (p g : Arr) (hz : isZeroArr g)
    (hl : g.length = p.length) : sgdF alpha p g = p :=
  arrSub_zero_right p (scale alpha g) (isZeroArr_scale alpha g hz)
    (by rw [length_scale, hl])

/-- With a zero gradient AND zero velocity the momentum parameter update
vanishes (with nonzero velocity it does not, see the counterexample). -/
theorem momentumF_zero_fst (gamma alpha : ℝ) (p v g : Arr)
    (hzg : isZeroArr g) (hgl : g.length = p.length)
    (hzv : isZeroArr v) (hvl : v.length = p.length) :
    (momentumF gamma alpha p v g).1 = p := by
  show arrSub p (arrAdd (scale gamma v) (scale alpha g)) = p
  exact arrSub_zero_right p _
    (isZeroArr_arrAdd _ _ (isZeroArr_scale gamma v hzv) (isZeroArr_scale alpha g hzg))
    (by rw [length_arrAdd, length_scale, length_scale, hvl, hgl, min_self])

/-- With a zero gradient the adagrad parameter update vanishes (the update
term has numerator zero, whatever the cache holds). -/
theorem adagradF_zero_fst (alpha : ℝ) (p c g : Arr)
    (hzg : isZeroArr g) (hgl : g.length = p.length) (hcl : c.length = p.length) :
    (adagradF alpha p c g).1 = p := by
  show arrSub p (arrDiv (scale alpha g)
    (addConst eps (arrSqrt (arrAdd c (arrSq g))))) = p
  refine arrSub_zero_right p _
    (isZeroArr_arrDiv_left _ _ (isZeroArr_scale alpha g hzg)) ?_
  rw [length_arrDiv, length_scale, length_addConst, length_arrSqrt,
    length_arrAdd, length_arrSq, hgl, hcl, min_self, min_self]

/-- With a zero gradient the rmsprop parameter update vanishes. -/
theorem rmspropF_zero_fst (gamma alpha : ℝ) (p c g : Arr)
    (hzg : isZeroArr g) (hgl : g.length = p.length) (hcl : c.length = p.length) :
    (rmspropF gamma alpha p c g).1 = p := by
  show arrSub p (arrDiv (scale alpha g)
    (addConst eps (arrSqrt (exp_running_avg c (arrSq g) gamma)))) = p
  refine arrSub_zero_right p _
    (isZeroArr_arrDiv_left _ _ (isZeroArr_scale alpha g hzg)) ?_
  rw [length_arrDiv, length_scale, length_addConst, length_arrSqrt,
    length_exp_running_avg, length_arrSq, hgl, hcl, min_self, min_self]

/-- With a zero gradient AND zero first moment the adam parameter update
vanishes (the second moment may be anything of the right shape). -/
theorem adamF_zero_fst (beta1 beta2 alpha : ℝ) (t : Nat) (p m r g : Arr)
    (hzg : isZeroArr g) (hgl : g.length = p.length)
    (hzm : isZeroArr m) (hml : m.length = p.length)
    (hrl : r.length = p.length) :
    (adamF beta1 beta2 alpha t p (m, r) g).1 = p := by
  show arrSub p (arrDiv
    (scale alpha (divConst (1 - beta1 ^ t) (exp_running_avg m g beta1)))
    (addConst eps (arrSqrt (divConst (1 - beta2 ^ t)
      (exp_running_avg r (arrSq g) beta2))))) = p
  refine arrSub_zero_right p _
    (isZeroArr_arrDiv_left _ _ (isZeroArr_scale alpha _
      (isZeroArr_divConst _ _ (isZeroArr_exp_running_avg m g beta1 hzm hzg)))) ?_
  rw [length_arrDiv, length_scale, length_divConst, length_exp_running_avg,
    length_addConst, length_arrSqrt, length_divConst, length_exp_running_avg,
    length_arrSq, hgl, hml, hrl, min_self, min_self]

/-- If `f` fixes the parameter at every gradient key, a successful `update0`
returns the parameters unchanged. -/
theorem update0_eq_params (f : Arr → Arr → Arr) : ∀ (grad params : PMap),
    (keysP grad).Nodup → (keysP params).Nodup →
    (∀ k g p, lookupP grad k = some g → lookupP params k = some p → f p g = p) →
    ∀ ps, update0 f params grad = some ps → ps = params := by
  intro grad
  induction grad with
  | nil =>
    intro params _ _ _ ps hps
    exact (Option.some.inj hps).symm
  | cons kv rest ih =>
    intro params hndg hndp hfix ps hps
    rw [keysP_cons, List.nodup_cons] at hndg
    rw [update0_cons] at hps
    obtain ⟨p0, hp0, hrest⟩ := Option.bind_eq_some.mp hps
    have hf : f p0 kv.2 = p0 :=
      hfix kv.1 kv.2 p0 (by rw [lookupP_cons, if_pos rfl]) hp0
    rw [hf, setP_eq_self params kv.1 p0 hndp hp0] at hrest
    refine ih params hndg.2 hndp ?_ ps hrest
    intro k g p hg hp
    have hkr : k ∈ keysP rest := (lookupP_isSome_iff rest k).mp (by rw [hg]; rfl)
    have hne : kv.1 ≠ k := fun he => hndg.1 (he ▸ hkr)
    exact hfix k g p (by rw [lookupP_cons, if_neg hne]; exact hg) hp

/-- If `f`'s parameter component fixes the parameter at every gradient key, a
successful `update1` returns the parameters unchanged. -/
theorem update1_eq_params (f : Arr → Arr → Arr → Arr × Arr) :
    ∀ (grad params aux : PMap),
    (keysP grad).Nodup → (keysP params).Nodup →
    (∀ k g p a, lookupP grad k = some g → lookupP params k = some p →
      lookupP aux k = some a → (f p a g).1 = p) →
    ∀ pv, update1 f params aux grad = some pv → pv.1 = params := by
  intro grad
  induction grad with
  | nil =>
    intro params aux _ _ _ pv hpv
    rw [← Option.some.inj hpv]
  | cons kv rest ih =>
    intro params aux hndg hndp hfix pv hpv
    rw [keysP_cons, List.nodup_cons] at hndg
    rw [update1_cons] at hpv
    obtain ⟨a0, ha0, hpv1⟩ := Option.bind_eq_some.mp hpv
    obtain ⟨p0, hp0, hrest⟩ := Option.bind_eq_some.mp hpv1
    have hf : (f p0 a0 kv.2).1 = p0 :=
      hfix kv.1 kv.2 p0 a0 (by rw [lookupP_cons, if_pos rfl]) hp0 ha0
    rw [hf, setP_eq_self params kv.1 p0 hndp hp0] at hrest
    refine ih params (setP aux kv.1 (f p0 a0 kv.2).2) hndg.2 hndp ?_ pv hrest
    intro k g p a hg hp ha
    have hkr : k ∈ keysP rest := (lookupP_isSome_iff rest k).mp (by rw [hg]; rfl)
    have hne : kv.1 ≠ k := fun he => hndg.1 (he ▸ hkr)
    rw [lookupP_setP_ne aux kv.1 k _ (fun he => hne he.symm)] at ha
    exact hfix k g p a (by rw [lookupP_cons, if_neg hne]; exact hg) hp ha

/-- If `f`'s parameter component fixes the parameter at every gradient key, a
successful `update2` returns the parameters unchanged. -/
theorem update2_eq_params (f : Arr → Arr × Arr → Arr → Arr × (Arr × Arr)) :
    ∀ (grad params : PMap) (aux : PMap × PMap),
    (keysP grad).Nodup → (keysP params).Nodup →
    (∀ k g p m r, lookupP grad k = some g → lookupP params k = some p →
      lookupP aux.1 k = some m → lookupP aux.2 k = some r →
      (f p (m, r) g).1 = p) →
    ∀ pmr, update2 f params aux grad = some pmr → pmr.1 = params := by
  intro grad
  induction grad with
  | nil =>
    intro params aux _ _ _ pmr hpmr
    rw [← Option.some.inj hpmr]
  | cons kv rest ih =>
    intro params aux hndg hndp hfix pmr hpmr
    rw [keysP_cons, List.nodup_cons] at hndg
    rw [update2_cons] at hpmr
    obtain ⟨m0, hm0, hpv1⟩ := Option.bind_eq_some.mp hpmr
    obtain ⟨r0, hr0, hpv2⟩ := Option.bind_eq_some.mp hpv1
    obtain ⟨p0, hp0, hrest⟩ := Option.bind_eq_some.mp hpv2
    have hf : (f p0 (m0, r0) kv.2).1 = p0 :=
      hfix kv.1 kv.2 p0 m0 r0 (by rw [lookupP_cons, if_pos rfl]) hp0 hm0 hr0
    rw [hf, setP_eq_self params kv.1 p0 hndp hp0] at hrest
    refine ih params
      (setP aux.1 kv.1 (f p0 (m0, r0) kv.2).2.1,
       setP aux.2 kv.1 (f p0 (m0, r0) kv.2).2.2) hndg.2 hndp ?_ pmr hrest
    intro k g p m r hg hp hm hr
    have hkr : k ∈ keysP rest := (lookupP_isSome_iff rest k).mp (by rw [hg]; rfl)
    have hne : kv.1 ≠ k := fun he => hndg.1 (he ▸ hkr)
    rw [show (setP aux.1 kv.1 (f p0 (m0, r0) kv.2).2.1,
        setP aux.2 kv.1 (f p0 (m0, r0) kv.2).2.2).1 =
        setP aux.1 kv.1 (f p0 (m0, r0) kv.2).2.1 from rfl,
      lookupP_setP_ne aux.1 kv.1 k _ (fun he => hne he.symm)] at hm
    rw [show (setP aux.1 kv.1 (f p0 (m0, r0) kv.2).2.1,
        setP aux.2 kv.1 (f p0 (m0, r0) kv.2).2.2).2 =
        setP aux.2 kv.1 (f p0 (m0, r0) kv.2).2.2 from rfl,
      lookupP_setP_ne aux.2 kv.1 k _ (fun he => hne he.symm)] at hr
    exact hfix k g p m r (by rw [lookupP_cons, if_neg hne]; exact hg) hp hm hr

/-- Looking up any key in a one-entry dict pins down the key and value
(convenience for concrete witnesses). -/
theorem lookup_singleton_inv (name : String) (v : Arr) (k : String) (g : Arr)
    (h : lookupP [(name, v)] k = some g) : k = name ∧ g = v := by
  rw [lookupP_cons] at h
  by_cases hh : name = k
  · rw [if_pos hh] at h
    exact ⟨hh.symm, (Option.some.inj h).symm⟩
  · rw [if_neg hh] at h
    exact absurd h (by simp [lookupP])

/-- **C3 (amended).** If the gradient oracle returns an all-zero gradient
mapping on an iteration (each gradient array all zeros, of the parameter's
shape), then the iteration's update step leaves the model unchanged —
unconditionally for sgd, adagrad, and rmsprop; for momentum and nesterov
provided the velocity is zero at that iteration, and for adam provided the
first moment `M` is zero at that iteration (all of which hold on the first
iteration of a training call, where the optimizer state is freshly
zero-initialized).  As stated in the claim — at an arbitrary iteration with
arbitrary accumulated state — the property is false for momentum, nesterov,
and adam; see the counterexample. -/
theorem zero_grad_step_unchanged :
    -- sgd: no state condition
    (∀ (C L : Type) (ts : TrainStep C L) (alpha : ℝ) (t : Nat) (m : Model C)
        (mb : MB) (out : (Model C × Unit) × L),
      sgdStep ts alpha t m () mb = some out →
      (keysP (ts m mb).1).Nodup → (keysP m.net_params).Nodup →
      (∀ k g p, lookupP (ts m mb).1 k = some g →
        lookupP m.net_params k = some p → isZeroArr g ∧ g.length = p.length) →
      out.1.1 = m) ∧
    -- momentum: requires zero velocity
    (∀ (C L : Type) (ts : TrainStep C L) (gamma alpha : ℝ) (t : Nat)
        (m : Model C) (vel : PMap) (mb : MB) (out : (Model C × PMap) × L),
      momentumStep ts gamma alpha t m vel mb = some out →
      (keysP (ts m mb).1).Nodup → (keysP m.net_params).Nodup →
      (∀ k g p, lookupP (ts m mb).1 k = some g →
        lookupP m.net_params k = some p → isZeroArr g ∧ g.length = p.length) →
      (∀ k v p, lookupP vel k = some v →
        lookupP m.net_params k = some p → isZeroArr v ∧ v.length = p.length) →
      out.1.1 = m) ∧
    -- nesterov: requires zero velocity (oracle evaluated at the lookahead)
    (∀ (C L : Type) (ts : TrainStep C L) (gamma alpha : ℝ) (t : Nat)
        (m : Model C) (vs : PMap × Nat) (mb : MB)
        (out : (Model C × (PMap × Nat)) × L),
      nesterovStep ts gamma alpha t m vs mb = some out →
      (∀ mo : Model C, (keysP (ts mo mb).1).Nodup) →
      (keysP m.net_params).Nodup →
      (∀ (mo : Model C) k g p, lookupP (ts mo mb).1 k = some g →
        lookupP m.net_params k = some p → isZeroArr g ∧ g.length = p.length) →
      (∀ k v p, lookupP vs.1 k = some v →
        lookupP m.net_params k = some p → isZeroArr v ∧ v.length = p.length) →
      out.1.1 = m) ∧
    -- adagrad: no state condition beyond matching shapes
    (∀ (C L : Type) (ts : TrainStep C L) (alpha : ℝ) (t : Nat) (m : Model C)
        (cache : PMap) (mb : MB) (out : (Model C × PMap) × L),
      adagradStep ts alpha t m cache mb = some out →
      (keysP (ts m mb).1).Nodup → (keysP m.net_params).Nodup →
      (∀ k g p, lookupP (ts m mb).1 k = some g →
        lookupP m.net_params k = some p → isZeroArr g ∧ g.length = p.length) →
      (∀ k c p, lookupP cache k = some c →
        lookupP m.net_params k = some p → c.length = p.length) →
      out.1.1 = m) ∧
    -- rmsprop: no state condition beyond matching shapes
    (∀ (C L : Type) (ts : TrainStep C L) (gamma alpha : ℝ) (t : Nat)
        (m : Model C) (cache : PMap) (mb : MB) (out : (Model C × PMap) × L),
      rmspropStep ts gamma alpha t m cache mb = some out →
      (keysP (ts m mb).1).Nodup → (keysP m.net_params).Nodup →
      (∀ k g p, lookupP (ts m mb).1 k = some g →
        lookupP m.net_params k = some p → isZeroArr g ∧ g.length = p.length) →
      (∀ k c p, lookupP cache k = some c →
        lookupP m.net_params k = some p → c.length = p.length) →
      out.1.1 = m) ∧
    -- adam: requires zero first moment
    (∀ (C L : Type) (ts : TrainStep C L) (beta1 beta2 alpha : ℝ) (t : Nat)
        (m : Model C) (mr : PMap × PMap) (mb : MB)
        (out : (Model C × (PMap × PMap)) × L),
      adamStep ts beta1 beta2 alpha t m mr mb = some out →
      1 ≤ t →
      (keysP (ts m mb).1).Nodup → (keysP m.net_params).Nodup →
      (∀ k g p, lookupP (ts m mb).1 k = some g →
        lookupP m.net_params k = some p → isZeroArr g ∧ g.length = p.length) →
      (∀ k v p, lookupP mr.1 k = some v →
        lookupP m.net_params k = some p → isZeroArr v ∧ v.length = p.length) →
      (∀ k r p, lookupP mr.2 k = some r →
        lookupP m.net_params k = some p → r.length = p.length) →
      out.1.1 = m) := by
  refine ⟨?_, ?_, ?_, ?_, ?_, ?_⟩
  · intro C L ts alpha t m mb out hstep hndg hndp hzero
    rw [sgdStep_eq, Option.map_eq_some'] at hstep
    obtain ⟨ps, hps, hout⟩ := hstep
    have hpe : ps = m.net_params := by
      refine update0_eq_params (sgdF alpha) (ts m mb).1 m.net_params hndg hndp
        ?_ ps hps
      intro k g p hg hp
      obtain ⟨hz, hl⟩ := hzero k g p hg hp
      exact sgdF_zero alpha p g hz hl
    rw [← hout]
    show {m with net_params := ps} = m
    rw [hpe]
  · intro C L ts gamma alpha t m vel mb out hstep hndg hndp hzero hvel
    rw [momentumStep_eq, Option.map_eq_some'] at hstep
    obtain ⟨pv, hpv, hout⟩ := hstep
    have hpe : pv.1 = m.net_params := by
      refine update1_eq_params (momentumF gamma alpha) (ts m mb).1 m.net_params
        vel hndg hndp ?_ pv hpv
      intro k g p a hg hp ha
      obtain ⟨hz, hl⟩ := hzero k g p hg hp
      obtain ⟨hzv, hlv⟩ := hvel k a p ha hp
      exact momentumF_zero_fst gamma alpha p a g hz hl hzv hlv
    rw [← hout]
    show {m with net_params := pv.1} = m
    rw [hpe]
  · intro C L ts gamma alpha t m vs mb out hstep hndg hndp hzero hvel
    rw [nesterovStep_eq] at hstep
    obtain ⟨ahead, _, hstep1⟩ := Option.bind_eq_some.mp hstep
    obtain ⟨pv, hpv, hout⟩ := Option.bind_eq_some.mp hstep1
    have hpe : pv.1 = m.net_params := by
      refine update1_eq_params (momentumF gamma alpha) (ts ahead mb).1
        m.net_params vs.1 (hndg ahead) hndp ?_ pv hpv
      intro k g p a hg hp ha
      obtain ⟨hz, hl⟩ := hzero ahead k g p hg hp
      obtain ⟨hzv, hlv⟩ := hvel k a p ha hp
      exact momentumF_zero_fst gamma alpha p a g hz hl hzv hlv
    have hout' := Option.some.inj hout
    rw [← hout']
    show {m with net_params := pv.1} = m
    rw [hpe]
  · intro C L ts alpha t m cache mb out hstep hndg hndp hzero hcache
    rw [adagradStep_eq, Option.map_eq_some'] at hstep
    obtain ⟨pc, hpc, hout⟩ := hstep
    have hpe : pc.1 = m.net_params := by
      refine update1_eq_params (adagradF alpha) (ts m mb).1 m.net_params
        cache hndg hndp ?_ pc hpc
      intro k g p a hg hp ha
      obtain ⟨hz, hl⟩ := hzero k g p hg hp
      exact adagradF_zero_fst alpha p a g hz hl (hcache k a p ha hp)
    rw [← hout]
    show {m with net_params := pc.1} = m
    rw [hpe]
  · intro C L ts gamma alpha t m cache mb out hstep hndg hndp hzero hcache
    rw [rmspropStep_eq, Option.map_eq_some'] at hstep
    obtain ⟨pc, hpc, hout⟩ := hstep
    have hpe : pc.1 = m.net_params := by
      refine update1_eq_params (rmspropF gamma alpha) (ts m mb).1 m.net_params
        cache hndg hndp ?_ pc hpc
      intro k g p a hg hp ha
      obtain ⟨hz, hl⟩ := hzero k g p hg hp
      exact rmspropF_zero_fst gamma alpha p a g hz hl (hcache k a p ha hp)
    rw [← hout]
    show {m with net_params := pc.1} = m
    rw [hpe]
  · intro C L ts beta1 beta2 alpha t m mr mb out hstep _ hndg hndp hzero hm hr
    rw [adamStep_eq, Option.map_eq_some'] at hstep
    obtain ⟨pmr, hpmr, hout⟩ := hstep
    have hpe : pmr.1 = m.net_params := by
      refine update2_eq_params (adamF beta1 beta2 alpha t) (ts m mb).1
        m.net_params mr hndg hndp ?_ pmr hpmr
      intro k g p mv rv hg hp hmv hrv
      obtain ⟨hz, hl⟩ := hzero k g p hg hp
      obtain ⟨hzm, hlm⟩ := hm k mv p hmv hp
      exact adamF_zero_fst beta1 beta2 alpha t p mv rv g hz hl hzm hlm
        (hr k rv p hrv hp)
    rw [← hout]
    show {m with net_params := pmr.1} = m
    rw [hpe]

/-- **C3 counterexample.** At an iteration where the accumulated velocity is
nonzero (as it is after any earlier iteration with a nonzero gradient), a
zero gradient does NOT leave the parameters unchanged under the momentum
update (gamma = 0.9, alpha = 0.001, the source's values): from `p = [1]`,
`v = [1]`, `g = [0]` the parameter moves to `[1 - 0.9]`. -/
theorem zero_grad_counterexample :
    (momentumStep (fun _ _ => ([("W", [(0:ℝ)])], (0:Nat))) 0.9 0.001 1
        (⟨0, [("W", [(1:ℝ)])], 0, ()⟩ : Model Unit) [("W", [(1:ℝ)])]
        ([], [])).map (fun out => out.1.1.net_params)
      ≠ some [("W", [(1:ℝ)])] := by
  intro h
  rw [show (momentumStep (fun _ _ => ([("W", [(0:ℝ)])], (0:Nat))) 0.9 0.001 1
        (⟨0, [("W", [(1:ℝ)])], 0, ()⟩ : Model Unit) [("W", [(1:ℝ)])]
        ([], [])).map (fun out => out.1.1.net_params)
      = some [("W", [(1:ℝ) - ((0.9:ℝ) * 1 + (0.001:ℝ) * 0)])] from rfl] at h
  norm_num at h

/-- Witness for C3 (amended): a momentum step with zero gradient AND zero
velocity leaves the model unchanged at a concrete input. -/
theorem zero_grad_step_unchanged_witness :
    (((⟨0, [("W", [(5:ℝ) - ((0.9:ℝ) * 0 + (0.001:ℝ) * 0)])], 0, ()⟩ : Model Unit),
        [("W", [(0.9:ℝ) * 0 + (0.001:ℝ) * 0])]),
      (0:Nat)).1.1 = (⟨0, [("W", [(5:ℝ)])], 0, ()⟩ : Model Unit) :=
  zero_grad_step_unchanged.2.1 Unit Nat (fun _ _ => ([("W", [(0:ℝ)])], (0:Nat)))
    0.9 0.001 1 ⟨0, [("W", [(5:ℝ)])], 0, ()⟩ [("W", [(0:ℝ)])] ([], []) _
    rfl (by simp [keysP]) (by simp [keysP])
    (by
      intro k g p hg hp
      obtain ⟨_, hgv⟩ := lookup_singleton_inv _ _ _ _ hg
      obtain ⟨_, hpv⟩ := lookup_singleton_inv _ _ _ _ hp
      subst hgv
      subst hpv
      exact ⟨fun x hx => by simpa using hx, rfl⟩)
    (by
      intro k v p hv hp
      obtain ⟨_, hvv⟩ := lookup_singleton_inv _ _ _ _ hv
      obtain ⟨_, hpv⟩ := lookup_singleton_inv _ _ _ _ hp
      subst hvv
      subst hpv
      exact ⟨fun x hx => by simpa using hx, rfl⟩)

/-! ### Claim C1: the nesterov lookahead -/

theorem lookaheadParams_nil (gamma : ℝ) (vel : PMap) :
    lookaheadParams gamma [] vel = some [] := rfl

theorem lookaheadParams_cons (gamma : ℝ) (kv : String × Arr) (rest vel : PMap) :
    lookaheadParams gamma (kv :: rest) vel =
      (lookupP vel kv.1).bind (fun v => (lookaheadParams gamma rest vel).bind
        (fun tail => some ((kv.1, arrAdd kv.2 (scale gamma v)) :: tail))) := rfl

/-- Characterization of `model_ahead_net`: it has the parameter keys, and each
entry is `param + gamma * velocity`. -/
theorem lookaheadParams_spec (gamma : ℝ) (vel : PMap) : ∀ (ps : PMap),
    (∀ k, k ∈ keysP ps → k ∈ keysP vel) →
    ∃ la, lookaheadParams gamma ps vel = some la ∧ keysP la = keysP ps ∧
      (∀ k p v, lookupP ps k = some p → lookupP vel k = some v →
        lookupP la k = some (arrAdd p (scale gamma v))) := by
  intro ps
  induction ps with
  | nil =>
    intro _
    exact ⟨[], rfl, rfl, by intro k p v hp; simp [lookupP] at hp⟩
  | cons kv rest ih =>
    intro hsub
    have hkv : kv.1 ∈ keysP vel :=
      hsub kv.1 (by rw [keysP_cons]; exact List.mem_cons_self _ _)
    obtain ⟨v0, hv0⟩ :=
      Option.isSome_iff_exists.mp ((lookupP_isSome_iff vel kv.1).mpr hkv)
    obtain ⟨la, hla, hkeys, hupd⟩ :=
      ih (fun k hk => hsub k (by rw [keysP_cons]; exact List.mem_cons_of_mem _ hk))
    refine ⟨(kv.1, arrAdd kv.2 (scale gamma v0)) :: la, ?_, ?_, ?_⟩
    · rw [lookaheadParams_cons, hv0, Option.some_bind, hla, Option.some_bind]
    · rw [keysP_cons, keysP_cons, hkeys]
    · intro k p v hp hv
      rw [lookupP_cons] at hp ⊢
      by_cases h : kv.1 = k
      · rw [if_pos h] at hp ⊢
        have hpv : p = kv.2 := (Option.some.inj hp).symm
        have hvv : v = v0 := by
          rw [← h, hv0] at hv
          exact (Option.some.inj hv).symm
        rw [hpv, hvv]
      · rw [if_neg h] at hp ⊢
        exact hupd k p v hp hv

/-- **C1 (amended).** Every nesterov iteration evaluates the gradient oracle
at a lookahead snapshot whose per-key parameter value is
`param + gamma*velocity` (gamma = 0.9), then applies the momentum update
(`velocity' = gamma*velocity + alpha*grad; param -= velocity'`) to the real
parameter set; the lookahead model's caches dict is a SHALLOW COPY
(`model['caches'].copy()`) — a distinct dict object holding the same
entries (hence sharing the real model's cache values) — not the same dict
object as the claim states. -/
theorem nesterov_lookahead_update (C L : Type) (ts : TrainStep C L) (alpha : ℝ)
    (t : Nat) (m : Model C) (vel : PMap) (al : Nat) (mb : MB)
    (hsub : ∀ k, k ∈ keysP m.net_params → k ∈ keysP vel)
    (hfresh : m.cachesAddr < al) :
    ∃ ahead, nesterovAhead 0.9 m vel al = some ahead ∧
      (∀ k p v, lookupP m.net_params k = some p → lookupP vel k = some v →
        lookupP ahead.net_params k = some (arrAdd p (scale 0.9 v))) ∧
      ahead.caches = m.caches ∧
      ahead.cachesAddr ≠ m.cachesAddr ∧
      ((keysP (ts ahead mb).1).Nodup →
        (∀ k, k ∈ keysP (ts ahead mb).1 → k ∈ keysP m.net_params) →
        (∀ k, k ∈ keysP (ts ahead mb).1 → k ∈ keysP vel) →
        ∃ ps vs, nesterovStep ts 0.9 alpha t m (vel, al) mb =
            some (({m with net_params := ps}, (vs, al + 2)), (ts ahead mb).2) ∧
          (∀ k g p v, lookupP (ts ahead mb).1 k = some g →
            lookupP m.net_params k = some p → lookupP vel k = some v →
            lookupP ps k = some (arrSub p (arrAdd (scale 0.9 v) (scale alpha g))) ∧
            lookupP vs k = some (arrAdd (scale 0.9 v) (scale alpha g)))) := by
  obtain ⟨la, hla, hkeys, hupd⟩ := lookaheadParams_spec 0.9 vel m.net_params hsub
  have hahead : nesterovAhead 0.9 m vel al =
      some ⟨al + 1, la, al, m.caches⟩ := by
    show (lookaheadParams 0.9 m.net_params vel).map _ = _
    rw [hla]
    rfl
  refine ⟨⟨al + 1, la, al, m.caches⟩, hahead, ?_, rfl, ne_of_gt hfresh, ?_⟩
  · intro k p v hp hv
    exact hupd k p v hp hv
  · intro hndg hsubp hsubv
    obtain ⟨ps, vs, hupd1, _, _, hkeyupd, _⟩ :=
      update1_spec (momentumF 0.9 alpha)
        (ts ⟨al + 1, la, al, m.caches⟩ mb).1 m.net_params vel hndg hsubp hsubv
    refine ⟨ps, vs, ?_, ?_⟩
    · rw [nesterovStep_eq]
      show (nesterovAhead 0.9 m vel al).bind _ = _
      rw [hahead, Option.some_bind, hupd1, Option.some_bind]
    · intro k g p v hg hp hv
      obtain ⟨h1, h2⟩ := hkeyupd k g p v hg hp hv
      constructor
      · rw [h1]; rfl
      · rw [h2]; rfl

/-- **C1 counterexample.** The lookahead model does NOT share the caches dict
object with the real model: `model['caches'].copy()` allocates a new dict.
Concretely, with the real model's caches dict at address 0 and the fresh
allocation counter at 5, the lookahead's caches dict sits at address 5. -/
theorem nesterov_shares_caches_counterexample :
    (nesterovAhead 0.9 (⟨0, [("W", [])], 0, ()⟩ : Model Unit) [("W", [])] 5).map
      Model.cachesAddr ≠ some 0 := by
  intro h
  rw [show (nesterovAhead 0.9 (⟨0, [("W", [])], 0, ()⟩ : Model Unit)
      [("W", [])] 5).map Model.cachesAddr = some 5 from rfl] at h
  exact absurd (Option.some.inj h) (by norm_num)

/-- Witness for C1 (amended) at a concrete input. -/
theorem nesterov_lookahead_update_witness :
    ∃ ahead, nesterovAhead 0.9 (⟨0, [("W", [])], 0, ()⟩ : Model Unit)
        [("W", [])] 5 = some ahead ∧
      (∀ k p v, lookupP [("W", [])] k = some p → lookupP [("W", [])] k = some v →
        lookupP ahead.net_params k = some (arrAdd p (scale 0.9 v))) ∧
      ahead.caches = () ∧
      ahead.cachesAddr ≠ 0 ∧
      ((keysP [("W", [])]).Nodup →
        (∀ k, k ∈ keysP [("W", [])] → k ∈ keysP [("W", [])]) →
        (∀ k, k ∈ keysP [("W", [])] → k ∈ keysP [("W", [])]) →
        ∃ ps vs, nesterovStep (fun _ _ => ([("W", [])], (0:Nat))) 0.9 0.001 1
            (⟨0, [("W", [])], 0, ()⟩ : Model Unit) ([("W", [])], 5) ([], []) =
            some ((⟨0, ps, 0, ()⟩, (vs, 7)), 0) ∧
          (∀ k g p v, lookupP [("W", [])] k = some g →
            lookupP [("W", [])] k = some p → lookupP [("W", [])] k = some v →
            lookupP ps k = some (arrSub p (arrAdd (scale 0.9 v) (scale 0.001 g))) ∧
            lookupP vs k = some (arrAdd (scale 0.9 v) (scale 0.001 g)))) :=
  nesterov_lookahead_update Unit Nat (fun _ _ => ([("W", [])], (0:Nat))) 0.001 1
    ⟨0, [("W", [])], 0, ()⟩ [("W", [])] 5 ([], []) (fun k h => h) (by norm_num)

/-! ### Claim C5: the minibatch partition -/

theorem stackRows_cons (r : List ℚ) (X : List (List ℚ)) (v : ℚ) (y : List ℚ) :
    stackRows (r :: X) (v :: y) = (r ++ [v]) :: stackRows X y := rfl

theorem stackRows_dropLast_getElem? : ∀ (X : List (List ℚ)) (y : List ℚ),
    X.length = y.length → ∀ (i : Nat),
    ((stackRows X y)[i]?).map List.dropLast = X[i]? := by
  intro X
  induction X with
  | nil =>
    intro y h i
    cases y with
    | nil => rfl
    | cons v y => simp at h
  | cons r X ih =>
    intro y h i
    cases y with
    | nil => simp at h
    | cons v y =>
      rw [stackRows_cons]
      cases i with
      | zero =>
        rw [List.getElem?_cons_zero, List.getElem?_cons_zero]
        show some (List.dropLast (r ++ [v])) = some r
        rw [List.dropLast_concat]
      | succ i =>
        rw [List.getElem?_cons_succ, List.getElem?_cons_succ]
        exact ih y (by simpa using h) i

theorem stackRows_getLastD_getElem? : ∀ (X : List (List ℚ)) (y : List ℚ),
    X.length = y.length → ∀ (i : Nat),
    ((stackRows X y)[i]?).map (fun r => truncInt (r.getLastD 0))
      = (y[i]?).map truncInt := by
  intro X
  induction X with
  | nil =>
    intro y h i
    cases y with
    | nil => rfl
    | cons v y => simp at h
  | cons r X ih =>
    intro y h i
    cases y with
    | nil => simp at h
    | cons v y =>
      rw [stackRows_cons]
      cases i with
      | zero =>
        rw [List.getElem?_cons_zero, List.getElem?_cons_zero]
        show some (truncInt ((r ++ [v]).getLastD 0)) = some (truncInt v)
        rw [List.getLastD_concat]
      | succ i =>
        rw [List.getElem?_cons_succ, List.getElem?_cons_succ]
        exact ih y (by simpa using h) i

/-- `Z[:, :-1]` of the shuffled stack is the permuted feature matrix. -/
theorem shuffle_fst (X : List (List ℚ)) (y : List ℚ) (perm : List Nat)
    (h : X.length = y.length) :
    (shuffle X y perm).1 = permuteRows perm X := by
  show (permuteRows perm (stackRows X y)).map List.dropLast = permuteRows perm X
  rw [permuteRows, permuteRows, List.map_filterMap]
  exact List.filterMap_congr (fun i _ => stackRows_dropLast_getElem? X y h i)

/-- `Z[:, -1].astype(int)` of the shuffled stack is the permuted label vector,
coerced to integers. -/
theorem shuffle_snd (X : List (List ℚ)) (y : List ℚ) (perm : List Nat)
    (h : X.length = y.length) :
    (shuffle X y perm).2 = (permuteRows perm y).map truncInt := by
  show (permuteRows perm (stackRows X y)).map (fun r => truncInt (r.getLastD 0))
    = (permuteRows perm y).map truncInt
  rw [permuteRows, permuteRows, List.map_filterMap, List.map_filterMap]
  exact List.filterMap_congr (fun i _ => stackRows_getLastD_getElem? X y h i)

theorem filterMap_getElem?_range {α : Type} : ∀ (Z : List α),
    (List.range Z.length).filterMap (fun i => Z[i]?) = Z := by
  intro Z
  induction Z with
  | nil => rfl
  | cons a Z ih =>
    rw [show (a :: Z).length = Z.length + 1 from rfl, List.range_succ_eq_map,
      List.filterMap_cons_some List.getElem?_cons_zero,
      List.filterMap_map]
    have h2 : List.filterMap ((fun i => (a :: Z)[i]?) ∘ Nat.succ)
        (List.range Z.length) = List.filterMap (fun i => Z[i]?)
          (List.range Z.length) :=
      List.filterMap_congr (fun i _ => List.getElem?_cons_succ)
    rw [h2, ih]

/-- Permuting rows by a permutation of the index range is a `List.Perm`. -/
theorem permuteRows_perm {α : Type} (perm : List Nat) (Z : List α)
    (h : perm.Perm (List.range Z.length)) : (permuteRows perm Z).Perm Z := by
  have hp := h.filterMap (fun i => Z[i]?)
  rwa [filterMap_getElem?_range Z] at hp

theorem permuteRows_length {α : Type} : ∀ (perm : List Nat) (Z : List α),
    (∀ i ∈ perm, i < Z.length) → (permuteRows perm Z).length = perm.length := by
  intro perm
  induction perm with
  | nil => intro Z _; rfl
  | cons i rest ih =>
    intro Z h
    rw [permuteRows,
      List.filterMap_cons_some (List.getElem?_eq_getElem (h i (List.mem_cons_self _ _))),
      List.length_cons, List.length_cons,
      show List.filterMap (fun j => Z[j]?) rest = permuteRows rest Z from rfl,
      ih Z (fun j hj => h j (List.mem_cons_of_mem _ hj))]

theorem map_truncInt_permuteRows (perm : List Nat) (y : List ℚ) :
    (permuteRows perm y).map truncInt = permuteRows perm (y.map truncInt) := by
  rw [permuteRows, permuteRows, List.map_filterMap]
  exact List.filterMap_congr (fun i _ => (List.getElem?_map truncInt y i).symm)

theorem permuteRows_zip {α β : Type} : ∀ (perm : List Nat) (A : List α) (B : List β),
    (∀ i ∈ perm, i < A.length) → A.length = B.length →
    (permuteRows perm A).zip (permuteRows perm B) = permuteRows perm (A.zip B) := by
  intro perm
  induction perm with
  | nil => intro A B _ _; rfl
  | cons i rest ih =>
    intro A B h hlen
    have hiA : i < A.length := h i (List.mem_cons_self _ _)
    have hiB : i < B.length := hlen ▸ hiA
    obtain ⟨a, ha⟩ := (⟨_, List.getElem?_eq_getElem hiA⟩ : ∃ a, A[i]? = some a)
    obtain ⟨b, hb⟩ := (⟨_, List.getElem?_eq_getElem hiB⟩ : ∃ b, B[i]? = some b)
    have hab : (A.zip B)[i]? = some (a, b) :=
      List.getElem?_zip_eq_some.mpr ⟨ha, hb⟩
    rw [permuteRows, permuteRows, permuteRows,
      List.filterMap_cons_some ha, List.filterMap_cons_some hb,
      List.filterMap_cons_some hab, List.zip_cons_cons,
      show List.filterMap (fun j => A[j]?) rest = permuteRows rest A from rfl,
      show List.filterMap (fun j => B[j]?) rest = permuteRows rest B from rfl,
      show List.filterMap (fun j => (A.zip B)[j]?) rest
        = permuteRows rest (A.zip B) from rfl,
      ih A B (fun j hj => h j (List.mem_cons_of_mem _ hj)) hlen]

theorem chunkCount_succ (k n : Nat) (hk : 0 < k) (hn : 0 < n) :
    (n + k - 1) / k = ((n - k) + k - 1) / k + 1 := by
  have h1 : n + k - 1 = (n - 1) + k := by omega
  rw [h1, Nat.add_div_right _ hk]
  rcases Nat.lt_or_ge n k with h | h
  · have h2 : n - k = 0 := by omega
    rw [h2, Nat.zero_add, Nat.div_eq_of_lt (by omega : n - 1 < k),
      Nat.div_eq_of_lt (by omega : k - 1 < k)]
  · have h3 : n - k + k - 1 = n - 1 := by omega
    rw [h3]

/-- The contiguous chunks `l[i:i+k]` for `i in range(0, len(l), k)`
concatenate back to `l`. -/
theorem chunks_flatten {α : Type} (k : Nat) (hk : 0 < k) : ∀ (n : Nat) (l : List α),
    l.length = n →
    ((List.range ((l.length + k - 1) / k)).map
      (fun j => (l.drop (j * k)).take k)).flatten = l := by
  intro n
  induction n using Nat.strong_induction_on with
  | _ n ih =>
    intro l hl
    cases l with
    | nil =>
      rw [show ([] : List α).length = 0 from rfl, Nat.zero_add,
        Nat.div_eq_of_lt (by omega : k - 1 < k)]
      rfl
    | cons a l' =>
      have hn0 : 0 < (a :: l').length := by simp
      rw [chunkCount_succ k (a :: l').length hk hn0, List.range_succ_eq_map,
        List.map_cons, List.flatten_cons, List.map_map]
      have hfun : ∀ j ∈ List.range (((a :: l').length - k + k - 1) / k),
          ((fun j => ((a :: l').drop (j * k)).take k) ∘ Nat.succ) j
            = ((((a :: l').drop k).drop (j * k)).take k) := by
        intro j _
        show ((a :: l').drop ((j + 1) * k)).take k = _
        rw [List.drop_drop]
        have harith : (j + 1) * k = k + j * k := by ring
        rw [harith]
      rw [List.map_congr_left hfun]
      have hlen : ((a :: l').drop k).length = (a :: l').length - k := by
        rw [List.length_drop]
      have htail :
          ((List.range ((((a :: l').drop k).length + k - 1) / k)).map
            (fun j => (((a :: l').drop k).drop (j * k)).take k)).flatten
            = (a :: l').drop k :=
        ih ((a :: l').drop k).length (by rw [hlen]; omega) ((a :: l').drop k) rfl
      rw [hlen] at htail
      rw [htail, Nat.zero_mul, List.drop_zero]
      exact List.take_append_drop k (a :: l')

/-- **C5.** `get_minibatch` jointly permutes the `N` rows of the feature
matrix and the label vector by the same permutation (labels coerced to
integers) and slices the permuted data into contiguous chunks of the
requested size, chunk `j` having `min k (N - j*k)` rows (so the final chunk
is shorter when `N` is not a multiple of `k`); the chunks concatenate back
to the permuted data, and every input row appears exactly once across all
chunks combined. -/
theorem get_minibatch_spec (X : List (List ℚ)) (y : List ℚ) (k : Nat)
    (perm : List Nat) (hk : 0 < k) (hlen : X.length = y.length)
    (hperm : perm.Perm (List.range X.length)) :
    ∃ mbs, get_minibatch X y k perm = some mbs ∧
      (shuffle X y perm).1 = permuteRows perm X ∧
      (shuffle X y perm).2 = (permuteRows perm y).map truncInt ∧
      mbs = (List.range ((X.length + k - 1) / k)).map
        (fun j => (((permuteRows perm X).drop (j * k)).take k,
          ((((permuteRows perm y).map truncInt).drop (j * k)).take k))) ∧
      (mbs.map Prod.fst).flatten = permuteRows perm X ∧
      (mbs.map Prod.snd).flatten = (permuteRows perm y).map truncInt ∧
      mbs.map (fun b => b.1.length) =
        (List.range ((X.length + k - 1) / k)).map
          (fun j => min k (X.length - j * k)) ∧
      ((permuteRows perm X).zip ((permuteRows perm y).map truncInt)).Perm
        (X.zip (y.map truncInt)) := by
  have hmemX : ∀ i ∈ perm, i < X.length := by
    intro i hi
    exact List.mem_range.mp (hperm.mem_iff.mp hi)
  have hmemY : ∀ i ∈ perm, i < y.length := fun i hi => hlen ▸ hmemX i hi
  have hXlen : (permuteRows perm X).length = X.length := by
    rw [permuteRows_length perm X hmemX, hperm.length_eq, List.length_range]
  have hYlen : ((permuteRows perm y).map truncInt).length = X.length := by
    rw [List.length_map, permuteRows_length perm y hmemY, hperm.length_eq,
      List.length_range]
  have hfst := shuffle_fst X y perm hlen
  have hsnd := shuffle_snd X y perm hlen
  have hmbs : get_minibatch X y k perm =
      some ((List.range ((X.length + k - 1) / k)).map
        (fun j => (((permuteRows perm X).drop (j * k)).take k,
          ((((permuteRows perm y).map truncInt).drop (j * k)).take k)))) := by
    rw [get_minibatch, if_neg (Nat.pos_iff_ne_zero.mp hk)]
    show some ((List.range (((shuffle X y perm).1.length + k - 1) / k)).map
      (fun j => (((shuffle X y perm).1.drop (j * k)).take k,
        ((shuffle X y perm).2.drop (j * k)).take k))) = _
    rw [hfst, hsnd, hXlen]
  refine ⟨_, hmbs, hfst, hsnd, rfl, ?_, ?_, ?_, ?_⟩
  · rw [List.map_map]
    rw [List.map_congr_left (fun j _ => rfl :
      ∀ j ∈ List.range ((X.length + k - 1) / k),
        (Prod.fst ∘ (fun j => (((permuteRows perm X).drop (j * k)).take k,
          ((((permuteRows perm y).map truncInt).drop (j * k)).take k)))) j
        = ((permuteRows perm X).drop (j * k)).take k)]
    rw [show X.length = (permuteRows perm X).length from hXlen.symm]
    exact chunks_flatten k hk (permuteRows perm X).length (permuteRows perm X) rfl
  · rw [List.map_map]
    rw [List.map_congr_left (fun j _ => rfl :
      ∀ j ∈ List.range ((X.length + k - 1) / k),
        (Prod.snd ∘ (fun j => (((permuteRows perm X).drop (j * k)).take k,
          ((((permuteRows perm y).map truncInt).drop (j * k)).take k)))) j
        = (((permuteRows perm y).map truncInt).drop (j * k)).take k)]
    rw [show X.length = ((permuteRows perm y).map truncInt).length from hYlen.symm]
    exact chunks_flatten k hk _ ((permuteRows perm y).map truncInt) rfl
  · rw [List.map_map]
    refine List.map_congr_left ?_
    intro j _
    show (((permuteRows perm X).drop (j * k)).take k).length = _
    rw [List.length_take, List.length_drop, hXlen]
  · rw [map_truncInt_permuteRows,
      permuteRows_zip perm X (y.map truncInt) hmemX (by rw [List.length_map, hlen])]
    refine permuteRows_perm perm (X.zip (y.map truncInt)) ?_
    rw [show (X.zip (y.map truncInt)).length = X.length from by
      rw [List.length_zip, List.length_map, hlen, min_self]]
    exact hperm

/-- Concrete data for the C5 witness: N = 10 rows. -/
def X10 : List (List ℚ) := [[0], [1], [2], [3], [4], [5], [6], [7], [8], [9]]

def y10 : List ℚ := [0, 1, 2, 3, 4, 5, 6, 7, 8, 9]

def perm10 : List Nat := [2, 7, 1, 8, 0, 3, 9, 4, 5, 6]

/-- Witness for C5 at `N = 10`, `minibatch_size = 4`, together with the
evaluation of the chunk-size formula to `[4, 4, 2]`. -/
theorem get_minibatch_spec_witness :
    (∃ mbs, get_minibatch X10 y10 4 perm10 = some mbs ∧
      (shuffle X10 y10 perm10).1 = permuteRows perm10 X10 ∧
      (shuffle X10 y10 perm10).2 = (permuteRows perm10 y10).map truncInt ∧
      mbs = (List.range ((X10.length + 4 - 1) / 4)).map
        (fun j => (((permuteRows perm10 X10).drop (j * 4)).take 4,
          ((((permuteRows perm10 y10).map truncInt).drop (j * 4)).take 4))) ∧
      (mbs.map Prod.fst).flatten = permuteRows perm10 X10 ∧
      (mbs.map Prod.snd).flatten = (permuteRows perm10 y10).map truncInt ∧
      mbs.map (fun b => b.1.length) =
        (List.range ((X10.length + 4 - 1) / 4)).map
          (fun j => min 4 (X10.length - j * 4)) ∧
      ((permuteRows perm10 X10).zip ((permuteRows perm10 y10).map truncInt)).Perm
        (X10.zip (y10.map truncInt))) ∧
    (List.range ((X10.length + 4 - 1) / 4)).map
      (fun j => min 4 (X10.length - j * 4)) = [4, 4, 2] :=
  ⟨get_minibatch_spec X10 y10 4 perm10 (by norm_num) rfl (by decide), by decide⟩

/-! ### The training loop: equations and invariants (claims C6-C9) -/

section LoopLemmas

variable {C S L : Type}

theorem runIters_zero (step : Nat → Model C → S → MB → Option ((Model C × S) × L))
    (mbs : List MB) (idxs : Nat → Nat) (pa : Nat) (showL : L → String)
    (t : Nat) (m : Model C) (s : S) (log : List String)
    (tr : List (Nat × Nat × MB × L)) :
    runIters step mbs idxs pa showL t 0 m s log tr = some (m, s, log, tr) := rfl

theorem runIters_succ (step : Nat → Model C → S → MB → Option ((Model C × S) × L))
    (mbs : List MB) (idxs : Nat → Nat) (pa : Nat) (showL : L → String)
    (t r : Nat) (m : Model C) (s : S) (log : List String)
    (tr : List (Nat × Nat × MB × L)) :
    runIters step mbs idxs pa showL t (r + 1) m s log tr =
      (mbs[idxs t % mbs.length]?).bind (fun mb =>
        (step t m s mb).bind (fun msl =>
          runIters step mbs idxs pa showL (t + 1) r msl.1.1 msl.1.2
            (if t % pa = 0 then
              log ++ ["Iter-" ++ toString t ++ " loss: " ++ showL msl.2]
            else log)
            (tr ++ [(t, idxs t % mbs.length, mb, msl.2)]))) := rfl

/-- The loop runs exactly the iterations `t, t+1, ..., t+r-1`; the trace it
appends records, for each iteration `u`, the chosen index
`idxs u % mbs.length` and the minibatch `mbs[that index]` drawn from the
FIXED partition `mbs`; the printed log consists of exactly the lines
`Iter-<u> loss: <..>` for those recorded iterations `u` with `u % pa = 0`. -/
theorem runIters_trace_log
    (step : Nat → Model C → S → MB → Option ((Model C × S) × L))
    (mbs : List MB) (idxs : Nat → Nat) (pa : Nat) (showL : L → String) :
    ∀ (r t : Nat) (m : Model C) (s : S) (log : List String)
      (tr : List (Nat × Nat × MB × L)) (m' : Model C) (s' : S)
      (log' : List String) (tr' : List (Nat × Nat × MB × L)),
    runIters step mbs idxs pa showL t r m s log tr = some (m', s', log', tr') →
    ∃ newtr : List (Nat × Nat × MB × L),
      tr' = tr ++ newtr ∧
      newtr.map (fun e => (e.1, e.2.1, e.2.2.1)) =
        (List.range' t r).map (fun u =>
          (u, idxs u % mbs.length, mbs.getD (idxs u % mbs.length) ([], []))) ∧
      log' = log ++ newtr.filterMap (fun e =>
        if e.1 % pa = 0 then
          some ("Iter-" ++ toString e.1 ++ " loss: " ++ showL e.2.2.2)
        else none) := by
  intro r
  induction r with
  | zero =>
    intro t m s log tr m' s' log' tr' hrun
    rw [runIters_zero] at hrun
    simp only [Option.some.injEq, Prod.mk.injEq] at hrun
    obtain ⟨_, _, hlog, htr⟩ := hrun
    exact ⟨[], by rw [← htr, List.append_nil], rfl,
      by rw [← hlog, List.filterMap_nil, List.append_nil]⟩
  | succ r ih =>
    intro t m s log tr m' s' log' tr' hrun
    rw [runIters_succ] at hrun
    obtain ⟨mb, hmb, hrun1⟩ := Option.bind_eq_some.mp hrun
    obtain ⟨msl, _, hrun2⟩ := Option.bind_eq_some.mp hrun1
    obtain ⟨newtr, htr, hmap, hlog⟩ := ih (t + 1) msl.1.1 msl.1.2 _ _ m' s'
      log' tr' hrun2
    refine ⟨(t, idxs t % mbs.length, mb, msl.2) :: newtr, ?_, ?_, ?_⟩
    · rw [htr, List.append_assoc, List.singleton_append]
    · rw [List.map_cons, List.range'_succ, List.map_cons, hmap]
      have hgd : mbs.getD (idxs t % mbs.length) ([], []) = mb := by
        rw [List.getD_eq_getElem?_getD, hmb, Option.getD_some]
      rw [hgd]
    · rw [hlog]
      by_cases hpa : t % pa = 0
      · have hcons : List.filterMap (fun e =>
            if e.1 % pa = 0 then
              some ("Iter-" ++ toString e.1 ++ " loss: " ++ showL e.2.2.2)
            else none) ((t, idxs t % mbs.length, mb, msl.2) :: newtr)
            = ("Iter-" ++ toString t ++ " loss: " ++ showL msl.2) ::
              List.filterMap (fun e =>
                if e.1 % pa = 0 then
                  some ("Iter-" ++ toString e.1 ++ " loss: " ++ showL e.2.2.2)
                else none) newtr := by
          simp [hpa]
        rw [if_pos hpa, hcons, List.append_assoc, List.singleton_append]
      · have hcons : List.filterMap (fun e =>
            if e.1 % pa = 0 then
              some ("Iter-" ++ toString e.1 ++ " loss: " ++ showL e.2.2.2)
            else none) ((t, idxs t % mbs.length, mb, msl.2) :: newtr)
            = List.filterMap (fun e =>
                if e.1 % pa = 0 then
                  some ("Iter-" ++ toString e.1 ++ " loss: " ++ showL e.2.2.2)
                else none) newtr := by
          simp [hpa]
        rw [if_neg hpa, hcons]

/-- If every successful step preserves the model's identity fields, so does
the whole loop. -/
theorem runIters_model_identity
    (step : Nat → Model C → S → MB → Option ((Model C × S) × L))
    (mbs : List MB) (idxs : Nat → Nat) (pa : Nat) (showL : L → String)
    (hstep : ∀ t m s mb out, step t m s mb = some out →
      out.1.1.addr = m.addr ∧ out.1.1.cachesAddr = m.cachesAddr ∧
      out.1.1.caches = m.caches) :
    ∀ (r t : Nat) (m : Model C) (s : S) (log : List String)
      (tr : List (Nat × Nat × MB × L)) (m' : Model C) (s' : S)
      (log' : List String) (tr' : List (Nat × Nat × MB × L)),
    runIters step mbs idxs pa showL t r m s log tr = some (m', s', log', tr') →
    m'.addr = m.addr ∧ m'.cachesAddr = m.cachesAddr ∧ m'.caches = m.caches := by
  intro r
  induction r with
  | zero =>
    intro t m s log tr m' s' log' tr' hrun
    rw [runIters_zero] at hrun
    simp only [Option.some.injEq, Prod.mk.injEq] at hrun
    rw [← hrun.1]
    exact ⟨rfl, rfl, rfl⟩
  | succ r ih =>
    intro t m s log tr m' s' log' tr' hrun
    rw [runIters_succ] at hrun
    obtain ⟨mb, _, hrun1⟩ := Option.bind_eq_some.mp hrun
    obtain ⟨msl, hmsl, hrun2⟩ := Option.bind_eq_some.mp hrun1
    obtain ⟨h1, h2, h3⟩ := hstep t m s mb msl hmsl
    obtain ⟨h1', h2', h3'⟩ := ih (t + 1) msl.1.1 msl.1.2 _ _ m' s' log' tr' hrun2
    exact ⟨h1'.trans h1, h2'.trans h2, h3'.trans h3⟩

/-- If every successful step preserves the parameter key list, so does the
whole loop. -/
theorem runIters_keys
    (step : Nat → Model C → S → MB → Option ((Model C × S) × L))
    (mbs : List MB) (idxs : Nat → Nat) (pa : Nat) (showL : L → String)
    (hstep : ∀ t m s mb out, step t m s mb = some out →
      keysP out.1.1.net_params = keysP m.net_params) :
    ∀ (r t : Nat) (m : Model C) (s : S) (log : List String)
      (tr : List (Nat × Nat × MB × L)) (m' : Model C) (s' : S)
      (log' : List String) (tr' : List (Nat × Nat × MB × L)),
    runIters step mbs idxs pa showL t r m s log tr = some (m', s', log', tr') →
    keysP m'.net_params = keysP m.net_params := by
  intro r
  induction r with
  | zero =>
    intro t m s log tr m' s' log' tr' hrun
    rw [runIters_zero] at hrun
    simp only [Option.some.injEq, Prod.mk.injEq] at hrun
    rw [← hrun.1]
  | succ r ih =>
    intro t m s log tr m' s' log' tr' hrun
    rw [runIters_succ] at hrun
    obtain ⟨mb, _, hrun1⟩ := Option.bind_eq_some.mp hrun
    obtain ⟨msl, hmsl, hrun2⟩ := Option.bind_eq_some.mp hrun1
    exact (ih (t + 1) msl.1.1 msl.1.2 _ _ m' s' log' tr' hrun2).trans
      (hstep t m s mb msl hmsl)

end LoopLemmas

section OptimizerEquations

variable {C L : Type}

theorem sgd_eq (ts : TrainStep C L) (showL : L → String) (model : Model C)
    (X : List (List ℚ)) (y : List ℚ) (alpha : ℝ) (mb_size n_iter pa : Nat)
    (perm : List Nat) (idxs : Nat → Nat) :
    sgd ts showL model X y alpha mb_size n_iter pa perm idxs =
      (get_minibatch X y mb_size perm).bind (fun minibatches =>
        (runIters (sgdStep ts alpha) minibatches idxs pa showL
          1 n_iter model () [] []).bind
          (fun out => some (out.1, out.2.2))) := rfl

theorem momentum_eq (ts : TrainStep C L) (showL : L → String) (model : Model C)
    (X : List (List ℚ)) (y : List ℚ) (alpha : ℝ) (mb_size n_iter pa : Nat)
    (perm : List Nat) (idxs : Nat → Nat) :
    momentum ts showL model X y alpha mb_size n_iter pa perm idxs =
      (get_minibatch X y mb_size perm).bind (fun minibatches =>
        (runIters (momentumStep ts 0.9 alpha) minibatches idxs pa showL
          1 n_iter model (zerosLikeP model.net_params) [] []).bind
          (fun out => some (out.1, out.2.2))) := rfl

theorem nesterov_eq (ts : TrainStep C L) (showL : L → String) (model : Model C)
    (X : List (List ℚ)) (y : List ℚ) (alpha : ℝ) (mb_size n_iter pa : Nat)
    (perm : List Nat) (idxs : Nat → Nat) (al0 : Nat) :
    nesterov ts showL model X y alpha mb_size n_iter pa perm idxs al0 =
      (get_minibatch X y mb_size perm).bind (fun minibatches =>
        (runIters (nesterovStep ts 0.9 alpha) minibatches idxs pa showL
          1 n_iter model (zerosLikeP model.net_params, al0) [] []).bind
          (fun out => some (out.1, out.2.2))) := rfl

theorem adagrad_eq (ts : TrainStep C L) (showL : L → String) (model : Model C)
    (X : List (List ℚ)) (y : List ℚ) (alpha : ℝ) (mb_size n_iter pa : Nat)
    (perm : List Nat) (idxs : Nat → Nat) :
    adagrad ts showL model X y alpha mb_size n_iter pa perm idxs =
      (get_minibatch X y mb_size perm).bind (fun minibatches =>
        (runIters (adagradStep ts alpha) minibatches idxs pa showL
          1 n_iter model (zerosLikeP model.net_params) [] []).bind
          (fun out => some (out.1, out.2.2))) := rfl

theorem rmsprop_eq (ts : TrainStep C L) (showL : L → String) (model : Model C)
    (X : List (List ℚ)) (y : List ℚ) (alpha : ℝ) (mb_size n_iter pa : Nat)
    (perm : List Nat) (idxs : Nat → Nat) :
    rmsprop ts showL model X y alpha mb_size n_iter pa perm idxs =
      (get_minibatch X y mb_size perm).bind (fun minibatches =>
        (runIters (rmspropStep ts 0.9 alpha) minibatches idxs pa showL
          1 n_iter model (zerosLikeP model.net_params) [] []).bind
          (fun out => some (out.1, out.2.2))) := rfl

theorem adam_eq (ts : TrainStep C L) (showL : L → String) (model : Model C)
    (X : List (List ℚ)) (y : List ℚ) (alpha : ℝ) (mb_size n_iter pa : Nat)
    (perm : List Nat) (idxs : Nat → Nat) :
    adam ts showL model X y alpha mb_size n_iter pa perm idxs =
      (get_minibatch X y mb_size perm).bind (fun minibatches =>
        (runIters (adamStep ts 0.9 0.999 alpha) minibatches idxs pa showL
          1 n_iter model (zerosLikeP model.net_params, zerosLikeP model.net_params)
          [] []).bind
          (fun out => some (out.1, out.2.2))) := rfl

end OptimizerEquations

section StepPreservation

variable {C L : Type}

theorem sgdStep_identity (ts : TrainStep C L) (alpha : ℝ) :
    ∀ (t : Nat) (m : Model C) (s : Unit) (mb : MB) out,
    sgdStep ts alpha t m s mb = some out →
    out.1.1.addr = m.addr ∧ out.1.1.cachesAddr = m.cachesAddr ∧
      out.1.1.caches = m.caches := by
  intro t m s mb out hstep
  rw [sgdStep_eq, Option.map_eq_some'] at hstep
  obtain ⟨ps, _, hout⟩ := hstep
  rw [← hout]
  exact ⟨rfl, rfl, rfl⟩

theorem momentumStep_identity (ts : TrainStep C L) (gamma alpha : ℝ) :
    ∀ (t : Nat) (m : Model C) (s : PMap) (mb : MB) out,
    momentumStep ts gamma alpha t m s mb = some out →
    out.1.1.addr = m.addr ∧ out.1.1.cachesAddr = m.cachesAddr ∧
      out.1.1.caches = m.caches := by
  intro t m s mb out hstep
  rw [momentumStep_eq, Option.map_eq_some'] at hstep
  obtain ⟨pv, _, hout⟩ := hstep
  rw [← hout]
  exact ⟨rfl, rfl, rfl⟩

theorem nesterovStep_identity (ts : TrainStep C L) (gamma alpha : ℝ) :
    ∀ (t : Nat) (m : Model C) (s : PMap × Nat) (mb : MB) out,
    nesterovStep ts gamma alpha t m s mb = some out →
    out.1.1.addr = m.addr ∧ out.1.1.cachesAddr = m.cachesAddr ∧
      out.1.1.caches = m.caches := by
  intro t m s mb out hstep
  rw [nesterovStep_eq] at hstep
  obtain ⟨ahead, _, h1⟩ := Option.bind_eq_some.mp hstep
  obtain ⟨pv, _, h2⟩ := Option.bind_eq_some.mp h1
  rw [← Option.some.inj h2]
  exact ⟨rfl, rfl, rfl⟩

theorem adagradStep_identity (ts : TrainStep C L) (alpha : ℝ) :
    ∀ (t : Nat) (m : Model C) (s : PMap) (mb : MB) out,
    adagradStep ts alpha t m s mb = some out →
    out.1.1.addr = m.addr ∧ out.1.1.cachesAddr = m.cachesAddr ∧
      out.1.1.caches = m.caches := by
  intro t m s mb out hstep
  rw [adagradStep_eq, Option.map_eq_some'] at hstep
  obtain ⟨pc, _, hout⟩ := hstep
  rw [← hout]
  exact ⟨rfl, rfl, rfl⟩

theorem rmspropStep_identity (ts : TrainStep C L) (gamma alpha : ℝ) :
    ∀ (t : Nat) (m : Model C) (s : PMap) (mb : MB) out,
    rmspropStep ts gamma alpha t m s mb = some out →
    out.1.1.addr = m.addr ∧ out.1.1.cachesAddr = m.cachesAddr ∧
      out.1.1.caches = m.caches := by
  intro t m s mb out hstep
  rw [rmspropStep_eq, Option.map_eq_some'] at hstep
  obtain ⟨pc, _, hout⟩ := hstep
  rw [← hout]
  exact ⟨rfl, rfl, rfl⟩

theorem adamStep_identity (ts : TrainStep C L) (beta1 beta2 alpha : ℝ) :
    ∀ (t : Nat) (m : Model C) (s : PMap × PMap) (mb : MB) out,
    adamStep ts beta1 beta2 alpha t m s mb = some out →
    out.1.1.addr = m.addr ∧ out.1.1.cachesAddr = m.cachesAddr ∧
      out.1.1.caches = m.caches := by
  intro t m s mb out hstep
  rw [adamStep_eq, Option.map_eq_some'] at hstep
  obtain ⟨pmr, _, hout⟩ := hstep
  rw [← hout]
  exact ⟨rfl, rfl, rfl⟩

theorem update0_keys (f : Arr → Arr → Arr) : ∀ (grad params ps : PMap),
    update0 f params grad = some ps → keysP ps = keysP params := by
  intro grad
  induction grad with
  | nil =>
    intro params ps h
    rw [← Option.some.inj h]
  | cons kv rest ih =>
    intro params ps h
    rw [update0_cons] at h
    obtain ⟨p0, _, hrest⟩ := Option.bind_eq_some.mp h
    rw [ih (setP params kv.1 (f p0 kv.2)) ps hrest, keysP_setP]

theorem update1_keys (f : Arr → Arr → Arr → Arr × Arr) :
    ∀ (grad params aux : PMap) pv,
    update1 f params aux grad = some pv → keysP pv.1 = keysP params := by
  intro grad
  induction grad with
  | nil =>
    intro params aux pv h
    rw [← Option.some.inj h]
  | cons kv rest ih =>
    intro params aux pv h
    rw [update1_cons] at h
    obtain ⟨a0, _, h1⟩ := Option.bind_eq_some.mp h
    obtain ⟨p0, _, hrest⟩ := Option.bind_eq_some.mp h1
    rw [ih (setP params kv.1 (f p0 a0 kv.2).1) (setP aux kv.1 (f p0 a0 kv.2).2)
      pv hrest, keysP_setP]

theorem update2_keys (f : Arr → Arr × Arr → Arr → Arr × (Arr × Arr)) :
    ∀ (grad params : PMap) (aux : PMap × PMap) pmr,
    update2 f params aux grad = some pmr → keysP pmr.1 = keysP params := by
  intro grad
  induction grad with
  | nil =>
    intro params aux pmr h
    rw [← Option.some.inj h]
  | cons kv rest ih =>
    intro params aux pmr h
    rw [update2_cons] at h
    obtain ⟨m0, _, h1⟩ := Option.bind_eq_some.mp h
    obtain ⟨r0, _, h2⟩ := Option.bind_eq_some.mp h1
    obtain ⟨p0, _, hrest⟩ := Option.bind_eq_some.mp h2
    rw [ih (setP params kv.1 (f p0 (m0, r0) kv.2).1) _ pmr hrest, keysP_setP]

theorem sgdStep_keys (ts : TrainStep C L) (alpha : ℝ) :
    ∀ (t : Nat) (m : Model C) (s : Unit) (mb : MB) out,
    sgdStep ts alpha t m s mb = some out →
    keysP out.1.1.net_params = keysP m.net_params := by
  intro t m s mb out hstep
  rw [sgdStep_eq, Option.map_eq_some'] at hstep
  obtain ⟨ps, hps, hout⟩ := hstep
  rw [← hout]
  exact update0_keys (sgdF alpha) (ts m mb).1 m.net_params ps hps

theorem momentumStep_keys (ts : TrainStep C L) (gamma alpha : ℝ) :
    ∀ (t : Nat) (m : Model C) (s : PMap) (mb : MB) out,
    momentumStep ts gamma alpha t m s mb = some out →
    keysP out.1.1.net_params = keysP m.net_params := by
  intro t m s mb out hstep
  rw [momentumStep_eq, Option.map_eq_some'] at hstep
  obtain ⟨pv, hpv, hout⟩ := hstep
  rw [← hout]
  exact update1_keys (momentumF gamma alpha) (ts m mb).1 m.net_params s pv hpv

theorem nesterovStep_keys (ts : TrainStep C L) (gamma alpha : ℝ) :
    ∀ (t : Nat) (m : Model C) (s : PMap × Nat) (mb : MB) out,
    nesterovStep ts gamma alpha t m s mb = some out →
    keysP out.1.1.net_params = keysP m.net_params := by
  intro t m s mb out hstep
  rw [nesterovStep_eq] at hstep
  obtain ⟨ahead, _, h1⟩ := Option.bind_eq_some.mp hstep
  obtain ⟨pv, hpv, h2⟩ := Option.bind_eq_some.mp h1
  rw [← Option.some.inj h2]
  exact update1_keys (momentumF gamma alpha) (ts ahead mb).1 m.net_params s.1 pv hpv

theorem adagradStep_keys (ts : TrainStep C L) (alpha : ℝ) :
    ∀ (t : Nat) (m : Model C) (s : PMap) (mb : MB) out,
    adagradStep ts alpha t m s mb = some out →
    keysP out.1.1.net_params = keysP m.net_params := by
  intro t m s mb out hstep
  rw [adagradStep_eq, Option.map_eq_some'] at hstep
  obtain ⟨pc, hpc, hout⟩ := hstep
  rw [← hout]
  exact update1_keys (adagradF alpha) (ts m mb).1 m.net_params s pc hpc

theorem rmspropStep_keys (ts : TrainStep C L) (gamma alpha : ℝ) :
    ∀ (t : Nat) (m : Model C) (s : PMap) (mb : MB) out,
    rmspropStep ts gamma alpha t m s mb = some out →
    keysP out.1.1.net_params = keysP m.net_params := by
  intro t m s mb out hstep
  rw [rmspropStep_eq, Option.map_eq_some'] at hstep
  obtain ⟨pc, hpc, hout⟩ := hstep
  rw [← hout]
  exact update1_keys (rmspropF gamma alpha) (ts m mb).1 m.net_params s pc hpc

theorem adamStep_keys (ts : TrainStep C L) (beta1 beta2 alpha : ℝ) :
    ∀ (t : Nat) (m : Model C) (s : PMap × PMap) (mb : MB) out,
    adamStep ts beta1 beta2 alpha t m s mb = some out →
    keysP out.1.1.net_params = keysP m.net_params := by
  intro t m s mb out hstep
  rw [adamStep_eq, Option.map_eq_some'] at hstep
  obtain ⟨pmr, hpmr, hout⟩ := hstep
  rw [← hout]
  exact update2_keys (adamF beta1 beta2 alpha t) (ts m mb).1 m.net_params s pmr hpmr

end StepPreservation

/-- Glue: the trace and log characterization for a full optimizer run,
starting from the empty log and trace at iteration 1. -/
theorem opt_trace_of_run {C S L : Type}
    (step : Nat → Model C → S → MB → Option ((Model C × S) × L))
    (mbs0 : List MB) (idxs : Nat → Nat) (pa : Nat) (showL : L → String)
    (n_iter : Nat) (model : Model C) (s0 : S) (m' : Model C) (log : List String)
    (tr : List (Nat × Nat × MB × L))
    (hrun : (runIters step mbs0 idxs pa showL 1 n_iter model s0 [] []).bind
        (fun out => some (out.1, out.2.2)) = some (m', log, tr)) :
    tr.map (fun e => (e.1, e.2.1, e.2.2.1)) =
      (List.range' 1 n_iter).map (fun u =>
        (u, idxs u % mbs0.length, mbs0.getD (idxs u % mbs0.length) ([], []))) ∧
    log = tr.filterMap (fun e =>
      if e.1 % pa = 0 then
        some ("Iter-" ++ toString e.1 ++ " loss: " ++ showL e.2.2.2)
      else none) := by
  obtain ⟨out, hout, hsome⟩ := Option.bind_eq_some.mp hrun
  have hsome' := Option.some.inj hsome
  have hlog : out.2.2.1 = log := congrArg (fun p => p.2.1) hsome'
  have htr : out.2.2.2 = tr := congrArg (fun p => p.2.2) hsome'
  obtain ⟨newtr, htr', hmap, hlog'⟩ := runIters_trace_log step mbs0 idxs pa showL
    n_iter 1 model s0 [] [] out.1 out.2.1 out.2.2.1 out.2.2.2 hout
  rw [List.nil_append] at htr'
  constructor
  · rw [← htr, htr', hmap]
  · rw [← hlog, hlog', List.nil_append, ← htr, htr']

/-- **C6.** For every optimizer, the shuffle-and-partition happens exactly
once per training call, before the loop (the single `get_minibatch` result
`mbs0`, consuming the single permutation); the run performs exactly `n_iter`
iterations, numbered 1..n_iter, and iteration `u` consumes the minibatch
`mbs0[idxs u % mbs0.length]` — an index drawn (with replacement) into that
fixed partition, which is never recomputed during the loop. -/
theorem partition_once_and_fixed :
    (∀ (C L : Type) (ts : TrainStep C L) (showL : L → String) (model : Model C)
        (X : List (List ℚ)) (y : List ℚ) (alpha : ℝ) (mb_size n_iter pa : Nat)
        (perm : List Nat) (idxs : Nat → Nat) (m' : Model C) (log : List String)
        (tr : List (Nat × Nat × MB × L)) (mbs0 : List MB),
      sgd ts showL model X y alpha mb_size n_iter pa perm idxs
          = some (m', log, tr) →
      get_minibatch X y mb_size perm = some mbs0 →
      tr.map (fun e => (e.1, e.2.1, e.2.2.1)) =
        (List.range' 1 n_iter).map (fun u =>
          (u, idxs u % mbs0.length, mbs0.getD (idxs u % mbs0.length) ([], [])))) ∧
    (∀ (C L : Type) (ts : TrainStep C L) (showL : L → String) (model : Model C)
        (X : List (List ℚ)) (y : List ℚ) (alpha : ℝ) (mb_size n_iter pa : Nat)
        (perm : List Nat) (idxs : Nat → Nat) (m' : Model C) (log : List String)
        (tr : List (Nat × Nat × MB × L)) (mbs0 : List MB),
      momentum ts showL model X y alpha mb_size n_iter pa perm idxs
          = some (m', log, tr) →
      get_minibatch X y mb_size perm = some mbs0 →
      tr.map (fun e => (e.1, e.2.1, e.2.2.1)) =
        (List.range' 1 n_iter).map (fun u =>
          (u, idxs u % mbs0.length, mbs0.getD (idxs u % mbs0.length) ([], [])))) ∧
    (∀ (C L : Type) (ts : TrainStep C L) (showL : L → String) (model : Model C)
        (X : List (List ℚ)) (y : List ℚ) (alpha : ℝ) (mb_size n_iter pa : Nat)
        (perm : List Nat) (idxs : Nat → Nat) (al0 : Nat) (m' : Model C)
        (log : List String) (tr : List (Nat × Nat × MB × L)) (mbs0 : List MB),
      nesterov ts showL model X y alpha mb_size n_iter pa perm idxs al0
          = some (m', log, tr) →
      get_minibatch X y mb_size perm = some mbs0 →
      tr.map (fun e => (e.1, e.2.1, e.2.2.1)) =
        (List.range' 1 n_iter).map (fun u =>
          (u, idxs u % mbs0.length, mbs0.getD (idxs u % mbs0.length) ([], [])))) ∧
    (∀ (C L : Type) (ts : TrainStep C L) (showL : L → String) (model : Model C)
        (X : List (List ℚ)) (y : List ℚ) (alpha : ℝ) (mb_size n_iter pa : Nat)
        (perm : List Nat) (idxs : Nat → Nat) (m' : Model C) (log : List String)
        (tr : List (Nat × Nat × MB × L)) (mbs0 : List MB),
      adagrad ts showL model X y alpha mb_size n_iter pa perm idxs
          = some (m', log, tr) →
      get_minibatch X y mb_size perm = some mbs0 →
      tr.map (fun e => (e.1, e.2.1, e.2.2.1)) =
        (List.range' 1 n_iter).map (fun u =>
          (u, idxs u % mbs0.length, mbs0.getD (idxs u % mbs0.length) ([], [])))) ∧
    (∀ (C L : Type) (ts : TrainStep C L) (showL : L → String) (model : Model C)
        (X : List (List ℚ)) (y : List ℚ) (alpha : ℝ) (mb_size n_iter pa : Nat)
        (perm : List Nat) (idxs : Nat → Nat) (m' : Model C) (log : List String)
        (tr : List (Nat × Nat × MB × L)) (mbs0 : List MB),
      rmsprop ts showL model X y alpha mb_size n_iter pa perm idxs
          = some (m', log, tr) →
      get_minibatch X y mb_size perm = some mbs0 →
      tr.map (fun e => (e.1, e.2.1, e.2.2.1)) =
        (List.range' 1 n_iter).map (fun u =>
          (u, idxs u % mbs0.length, mbs0.getD (idxs u % mbs0.length) ([], [])))) ∧
    (∀ (C L : Type) (ts : TrainStep C L) (showL : L → String) (model : Model C)
        (X : List (List ℚ)) (y : List ℚ) (alpha : ℝ) (mb_size n_iter pa : Nat)
        (perm : List Nat) (idxs : Nat → Nat) (m' : Model C) (log : List String)
        (tr : List (Nat × Nat × MB × L)) (mbs0 : List MB),
      adam ts showL model X y alpha mb_size n_iter pa perm idxs
          = some (m', log, tr) →
      get_minibatch X y mb_size perm = some mbs0 →
      tr.map (fun e => (e.1, e.2.1, e.2.2.1)) =
        (List.range' 1 n_iter).map (fun u =>
          (u, idxs u % mbs0.length, mbs0.getD (idxs u % mbs0.length) ([], [])))) := by
  refine ⟨?_, ?_, ?_, ?_, ?_, ?_⟩
  · intro C L ts showL model X y alpha mb_size n_iter pa perm idxs m' log tr mbs0
      h1 h2
    rw [sgd_eq, h2, Option.some_bind] at h1
    exact (opt_trace_of_run _ mbs0 idxs pa showL n_iter model _ m' log tr h1).1
  · intro C L ts showL model X y alpha mb_size n_iter pa perm idxs m' log tr mbs0
      h1 h2
    rw [momentum_eq, h2, Option.some_bind] at h1
    exact (opt_trace_of_run _ mbs0 idxs pa showL n_iter model _ m' log tr h1).1
  · intro C L ts showL model X y alpha mb_size n_iter pa perm idxs al0 m' log tr
      mbs0 h1 h2
    rw [nesterov_eq, h2, Option.some_bind] at h1
    exact (opt_trace_of_run _ mbs0 idxs pa showL n_iter model _ m' log tr h1).1
  · intro C L ts showL model X y alpha mb_size n_iter pa perm idxs m' log tr mbs0
      h1 h2
    rw [adagrad_eq, h2, Option.some_bind] at h1
    exact (opt_trace_of_run _ mbs0 idxs pa showL n_iter model _ m' log tr h1).1
  · intro C L ts showL model X y alpha mb_size n_iter pa perm idxs m' log tr mbs0
      h1 h2
    rw [rmsprop_eq, h2, Option.some_bind] at h1
    exact (opt_trace_of_run _ mbs0 idxs pa showL n_iter model _ m' log tr h1).1
  · intro C L ts showL model X y alpha mb_size n_iter pa perm idxs m' log tr mbs0
      h1 h2
    rw [adam_eq, h2, Option.some_bind] at h1
    exact (opt_trace_of_run _ mbs0 idxs pa showL n_iter model _ m' log tr h1).1

/-- Concrete fixtures for the loop-level witnesses: a one-key model with
empty (zero-dimensional) parameter arrays and a constant gradient oracle. -/
def tsK : TrainStep Unit Nat := fun _ _ => ([("W", [])], 0)

def mK : Model Unit := ⟨0, [("W", [])], 0, ()⟩

/-- Witness for C6: a concrete 2-iteration sgd run; its trace selects, at
each iteration, the minibatch at the drawn index of the fixed partition. -/
theorem partition_once_and_fixed_witness :
    ([(1, 0, ([[(1:ℚ)]], [(1:ℤ)]), (0:Nat)), (2, 0, ([[(1:ℚ)]], [(1:ℤ)]), 0)].map
        (fun e => (e.1, e.2.1, e.2.2.1))) =
      (List.range' 1 2).map (fun u =>
        (u, (fun _ => 0 : Nat → Nat) u % [([[(1:ℚ)]], [(1:ℤ)])].length,
          [([[(1:ℚ)]], [(1:ℤ)])].getD ((fun _ => 0 : Nat → Nat) u %
            [([[(1:ℚ)]], [(1:ℤ)])].length) ([], []))) :=
  partition_once_and_fixed.1 Unit Nat tsK toString mK [[(1:ℚ)]] [(1:ℚ)] 1 1 2 1
    [0] (fun _ => 0) ⟨0, [("W", [])], 0, ()⟩ ["Iter-1 loss: 0", "Iter-2 loss: 0"]
    [(1, 0, ([[(1:ℚ)]], [(1:ℤ)]), 0), (2, 0, ([[(1:ℚ)]], [(1:ℤ)]), 0)]
    [([[(1:ℚ)]], [(1:ℤ)])] rfl rfl

/-- **C7.** For every optimizer with a positive print interval `pa`, the
printed log is exactly the lines `Iter-<u> loss: <loss at u>` for the
iterations `u` with `u % pa = 0`, in order; the iterations are exactly
`1..n_iter` — i.e., a progress line is emitted on iteration `u` iff `u` is a
(positive) multiple of `pa`. -/
theorem progress_lines_iff :
    (∀ (C L : Type) (ts : TrainStep C L) (showL : L → String) (model : Model C)
        (X : List (List ℚ)) (y : List ℚ) (alpha : ℝ) (mb_size n_iter pa : Nat)
        (perm : List Nat) (idxs : Nat → Nat) (m' : Model C) (log : List String)
        (tr : List (Nat × Nat × MB × L)), 0 < pa →
      sgd ts showL model X y alpha mb_size n_iter pa perm idxs
          = some (m', log, tr) →
      log = tr.filterMap (fun e =>
        if e.1 % pa = 0 then
          some ("Iter-" ++ toString e.1 ++ " loss: " ++ showL e.2.2.2)
        else none) ∧
      tr.map (fun e => e.1) = List.range' 1 n_iter) ∧
    (∀ (C L : Type) (ts : TrainStep C L) (showL : L → String) (model : Model C)
        (X : List (List ℚ)) (y : List ℚ) (alpha : ℝ) (mb_size n_iter pa : Nat)
        (perm : List Nat) (idxs : Nat → Nat) (m' : Model C) (log : List String)
        (tr : List (Nat × Nat × MB × L)), 0 < pa →
      momentum ts showL model X y alpha mb_size n_iter pa perm idxs
          = some (m', log, tr) →
      log = tr.filterMap (fun e =>
        if e.1 % pa = 0 then
          some ("Iter-" ++ toString e.1 ++ " loss: " ++ showL e.2.2.2)
        else none) ∧
      tr.map (fun e => e.1) = List.range' 1 n_iter) ∧
    (∀ (C L : Type) (ts : TrainStep C L) (showL : L → String) (model : Model C)
        (X : List (List ℚ)) (y : List ℚ) (alpha : ℝ) (mb_size n_iter pa : Nat)
        (perm : List Nat) (idxs : Nat → Nat) (al0 : Nat) (m' : Model C)
        (log : List String) (tr : List (Nat × Nat × MB × L)), 0 < pa →
      nesterov ts showL model X y alpha mb_size n_iter pa perm idxs al0
          = some (m', log, tr) →
      log = tr.filterMap (fun e =>
        if e.1 % pa = 0 then
          some ("Iter-" ++ toString e.1 ++ " loss: " ++ showL e.2.2.2)
        else none) ∧
      tr.map (fun e => e.1) = List.range' 1 n_iter) ∧
    (∀ (C L : Type) (ts : TrainStep C L) (showL : L → String) (model : Model C)
        (X : List (List ℚ)) (y : List ℚ) (alpha : ℝ) (mb_size n_iter pa : Nat)
        (perm : List Nat) (idxs : Nat → Nat) (m' : Model C) (log : List String)
        (tr : List (Nat × Nat × MB × L)), 0 < pa →
      adagrad ts showL model X y alpha mb_size n_iter pa perm idxs
          = some (m', log, tr) →
      log = tr.filterMap (fun e =>
        if e.1 % pa = 0 then
          some ("Iter-" ++ toString e.1 ++ " loss: " ++ showL e.2.2.2)
        else none) ∧
      tr.map (fun e => e.1) = List.range' 1 n_iter) ∧
    (∀ (C L : Type) (ts : TrainStep C L) (showL : L → String) (model : Model C)
        (X : List (List ℚ)) (y : List ℚ) (alpha : ℝ) (mb_size n_iter pa : Nat)
        (perm : List Nat) (idxs : Nat → Nat) (m' : Model C) (log : List String)
        (tr : List (Nat × Nat × MB × L)), 0 < pa →
      rmsprop ts showL model X y alpha mb_size n_iter pa perm idxs
          = some (m', log, tr) →
      log = tr.filterMap (fun e =>
        if e.1 % pa = 0 then
          some ("Iter-" ++ toString e.1 ++ " loss: " ++ showL e.2.2.2)
        else none) ∧
      tr.map (fun e => e.1) = List.range' 1 n_iter) ∧
    (∀ (C L : Type) (ts : TrainStep C L) (showL : L → String) (model : Model C)
        (X : List (List ℚ)) (y : List ℚ) (alpha : ℝ) (mb_size n_iter pa : Nat)
        (perm : List Nat) (idxs : Nat → Nat) (m' : Model C) (log : List String)
        (tr : List (Nat × Nat × MB × L)), 0 < pa →
      adam ts showL model X y alpha mb_size n_iter pa perm idxs
          = some (m', log, tr) →
      log = tr.filterMap (fun e =>
        if e.1 % pa = 0 then
          some ("Iter-" ++ toString e.1 ++ " loss: " ++ showL e.2.2.2)
        else none) ∧
      tr.map (fun e => e.1) = List.range' 1 n_iter) := by
  have key : ∀ (C S L : Type)
      (step : Nat → Model C → S → MB → Option ((Model C × S) × L))
      (mbs0 : List MB) (idxs : Nat → Nat) (pa : Nat) (showL : L → String)
      (n_iter : Nat) (model : Model C) (s0 : S) (m' : Model C)
      (log : List String) (tr : List (Nat × Nat × MB × L)),
      (runIters step mbs0 idxs pa showL 1 n_iter model s0 [] []).bind
          (fun out => some (out.1, out.2.2)) = some (m', log, tr) →
      log = tr.filterMap (fun e =>
        if e.1 % pa = 0 then
          some ("Iter-" ++ toString e.1 ++ " loss: " ++ showL e.2.2.2)
        else none) ∧
      tr.map (fun e => e.1) = List.range' 1 n_iter := by
    intro C S L step mbs0 idxs pa showL n_iter model s0 m' log tr hrun
    obtain ⟨hmap, hlog⟩ :=
      opt_trace_of_run step mbs0 idxs pa showL n_iter model s0 m' log tr hrun
    refine ⟨hlog, ?_⟩
    have h4 := congrArg (List.map (fun x : Nat × Nat × MB => x.1)) hmap
    rw [List.map_map, List.map_map] at h4
    have h5 : tr.map (fun e => e.1) =
        (List.range' 1 n_iter).map (fun u => u) := h4
    rw [h5, List.map_id']
  refine ⟨?_, ?_, ?_, ?_, ?_, ?_⟩
  · intro C L ts showL model X y alpha mb_size n_iter pa perm idxs m' log tr _ h1
    rw [sgd_eq] at h1
    obtain ⟨mbs0, hmb, h1'⟩ := Option.bind_eq_some.mp h1
    exact key C Unit L _ mbs0 idxs pa showL n_iter model _ m' log tr h1'
  · intro C L ts showL model X y alpha mb_size n_iter pa perm idxs m' log tr _ h1
    rw [momentum_eq] at h1
    obtain ⟨mbs0, hmb, h1'⟩ := Option.bind_eq_some.mp h1
    exact key C PMap L _ mbs0 idxs pa showL n_iter model _ m' log tr h1'
  · intro C L ts showL model X y alpha mb_size n_iter pa perm idxs al0 m' log tr
      _ h1
    rw [nesterov_eq] at h1
    obtain ⟨mbs0, hmb, h1'⟩ := Option.bind_eq_some.mp h1
    exact key C (PMap × Nat) L _ mbs0 idxs pa showL n_iter model _ m' log tr h1'
  · intro C L ts showL model X y alpha mb_size n_iter pa perm idxs m' log tr _ h1
    rw [adagrad_eq] at h1
    obtain ⟨mbs0, hmb, h1'⟩ := Option.bind_eq_some.mp h1
    exact key C PMap L _ mbs0 idxs pa showL n_iter model _ m' log tr h1'
  · intro C L ts showL model X y alpha mb_size n_iter pa perm idxs m' log tr _ h1
    rw [rmsprop_eq] at h1
    obtain ⟨mbs0, hmb, h1'⟩ := Option.bind_eq_some.mp h1
    exact key C PMap L _ mbs0 idxs pa showL n_iter model _ m' log tr h1'
  · intro C L ts showL model X y alpha mb_size n_iter pa perm idxs m' log tr _ h1
    rw [adam_eq] at h1
    obtain ⟨mbs0, hmb, h1'⟩ := Option.bind_eq_some.mp h1
    exact key C (PMap × PMap) L _ mbs0 idxs pa showL n_iter model _ m' log tr h1'

/-- Witness for C7 at the concrete 2-iteration sgd run with interval 1. -/
theorem progress_lines_iff_witness :
    (["Iter-1 loss: 0", "Iter-2 loss: 0"] =
      [(1, 0, ([[(1:ℚ)]], [(1:ℤ)]), (0:Nat)),
        (2, 0, ([[(1:ℚ)]], [(1:ℤ)]), 0)].filterMap (fun e =>
        if e.1 % 1 = 0 then
          some ("Iter-" ++ toString e.1 ++ " loss: " ++ toString e.2.2.2)
        else none)) ∧
    ([(1, 0, ([[(1:ℚ)]], [(1:ℤ)]), (0:Nat)), (2, 0, ([[(1:ℚ)]], [(1:ℤ)]), 0)].map
      (fun e => e.1) = List.range' 1 2) :=
  progress_lines_iff.1 Unit Nat tsK toString mK [[(1:ℚ)]] [(1:ℚ)] 1 1 2 1 [0]
    (fun _ => 0) ⟨0, [("W", [])], 0, ()⟩ ["Iter-1 loss: 0", "Iter-2 loss: 0"]
    [(1, 0, ([[(1:ℚ)]], [(1:ℤ)]), 0), (2, 0, ([[(1:ℚ)]], [(1:ℤ)]), 0)]
    (by norm_num) rfl

/-- **C8.** For every optimizer (provided the partition succeeds, i.e. the
minibatch size is nonzero): calling with `n_iter = 0` performs zero update
steps and returns the model unmutated (with empty log and trace), and every
successful call returns a model with the same object identity (`addr`), the
same caches dict object and the same caches contents as the model passed
in. -/
theorem zero_iters_and_same_object :
    (∀ (C L : Type) (ts : TrainStep C L) (showL : L → String) (model : Model C)
        (X : List (List ℚ)) (y : List ℚ) (alpha : ℝ) (mb_size pa : Nat)
        (perm : List Nat) (idxs : Nat → Nat) (mbs0 : List MB),
      get_minibatch X y mb_size perm = some mbs0 →
      (sgd ts showL model X y alpha mb_size 0 pa perm idxs
        = some (model, [], [])) ∧
      (∀ (n_iter : Nat) (m' : Model C) (log : List String)
          (tr : List (Nat × Nat × MB × L)),
        sgd ts showL model X y alpha mb_size n_iter pa perm idxs
            = some (m', log, tr) →
        m'.addr = model.addr ∧ m'.cachesAddr = model.cachesAddr ∧
          m'.caches = model.caches)) ∧
    (∀ (C L : Type) (ts : TrainStep C L) (showL : L → String) (model : Model C)
        (X : List (List ℚ)) (y : List ℚ) (alpha : ℝ) (mb_size pa : Nat)
        (perm : List Nat) (idxs : Nat → Nat) (mbs0 : List MB),
      get_minibatch X y mb_size perm = some mbs0 →
      (momentum ts showL model X y alpha mb_size 0 pa perm idxs
        = some (model, [], [])) ∧
      (∀ (n_iter : Nat) (m' : Model C) (log : List String)
          (tr : List (Nat × Nat × MB × L)),
        momentum ts showL model X y alpha mb_size n_iter pa perm idxs
            = some (m', log, tr) →
        m'.addr = model.addr ∧ m'.cachesAddr = model.cachesAddr ∧
          m'.caches = model.caches)) ∧
    (∀ (C L : Type) (ts : TrainStep C L) (showL : L → String) (model : Model C)
        (X : List (List ℚ)) (y : List ℚ) (alpha : ℝ) (mb_size pa : Nat)
        (perm : List Nat) (idxs : Nat → Nat) (al0 : Nat) (mbs0 : List MB),
      get_minibatch X y mb_size perm = some mbs0 →
      (nesterov ts showL model X y alpha mb_size 0 pa perm idxs al0
        = some (model, [], [])) ∧
      (∀ (n_iter : Nat) (m' : Model C) (log : List String)
          (tr : List (Nat × Nat × MB × L)),
        nesterov ts showL model X y alpha mb_size n_iter pa perm idxs al0
            = some (m', log, tr) →
        m'.addr = model.addr ∧ m'.cachesAddr = model.cachesAddr ∧
          m'.caches = model.caches)) ∧
    (∀ (C L : Type) (ts : TrainStep C L) (showL : L → String) (model : Model C)
        (X : List (List ℚ)) (y : List ℚ) (alpha : ℝ) (mb_size pa : Nat)
        (perm : List Nat) (idxs : Nat → Nat) (mbs0 : List MB),
      get_minibatch X y mb_size perm = some mbs0 →
      (adagrad ts showL model X y alpha mb_size 0 pa perm idxs
        = some (model, [], [])) ∧
      (∀ (n_iter : Nat) (m' : Model C) (log : List String)
          (tr : List (Nat × Nat × MB × L)),
        adagrad ts showL model X y alpha mb_size n_iter pa perm idxs
            = some (m', log, tr) →
        m'.addr = model.addr ∧ m'.cachesAddr = model.cachesAddr ∧
          m'.caches = model.caches)) ∧
    (∀ (C L : Type) (ts : TrainStep C L) (showL : L → String) (model : Model C)
        (X : List (List ℚ)) (y : List ℚ) (alpha : ℝ) (mb_size pa : Nat)
        (perm : List Nat) (idxs : Nat → Nat) (mbs0 : List MB),
      get_minibatch X y mb_size perm = some mbs0 →
      (rmsprop ts showL model X y alpha mb_size 0 pa perm idxs
        = some (model, [], [])) ∧
      (∀ (n_iter : Nat) (m' : Model C) (log : List String)
          (tr : List (Nat × Nat × MB × L)),
        rmsprop ts showL model X y alpha mb_size n_iter pa perm idxs
            = some (m', log, tr) →
        m'.addr = model.addr ∧ m'.cachesAddr = model.cachesAddr ∧
          m'.caches = model.caches)) ∧
    (∀ (C L : Type) (ts : TrainStep C L) (showL : L → String) (model : Model C)
        (X : List (List ℚ)) (y : List ℚ) (alpha : ℝ) (mb_size pa : Nat)
        (perm : List Nat) (idxs : Nat → Nat) (mbs0 : List MB),
      get_minibatch X y mb_size perm = some mbs0 →
      (adam ts showL model X y alpha mb_size 0 pa perm idxs
        = some (model, [], [])) ∧
      (∀ (n_iter : Nat) (m' : Model C) (log : List String)
          (tr : List (Nat × Nat × MB × L)),
        adam ts showL model X y alpha mb_size n_iter pa perm idxs
            = some (m', log, tr) →
        m'.addr = model.addr ∧ m'.cachesAddr = model.cachesAddr ∧
          m'.caches = model.caches)) := by
  have key : ∀ (C S L : Type)
      (step : Nat → Model C → S → MB → Option ((Model C × S) × L))
      (mbs0 : List MB) (idxs : Nat → Nat) (pa : Nat) (showL : L → String)
      (n_iter : Nat) (model : Model C) (s0 : S) (m' : Model C)
      (log : List String) (tr : List (Nat × Nat × MB × L)),
      (∀ t m s mb out, step t m s mb = some out →
        out.1.1.addr = m.addr ∧ out.1.1.cachesAddr = m.cachesAddr ∧
        out.1.1.caches = m.caches) →
      (runIters step mbs0 idxs pa showL 1 n_iter model s0 [] []).bind
          (fun out => some (out.1, out.2.2)) = some (m', log, tr) →
      m'.addr = model.addr ∧ m'.cachesAddr = model.cachesAddr ∧
        m'.caches = model.caches := by
    intro C S L step mbs0 idxs pa showL n_iter model s0 m' log tr hpres hrun
    obtain ⟨out, hout, hsome⟩ := Option.bind_eq_some.mp hrun
    have hm : out.1 = m' := congrArg Prod.fst (Option.some.inj hsome)
    obtain ⟨h1, h2, h3⟩ := runIters_model_identity step mbs0 idxs pa showL hpres
      n_iter 1 model s0 [] [] out.1 out.2.1 out.2.2.1 out.2.2.2 hout
    exact ⟨hm ▸ h1, hm ▸ h2, hm ▸ h3⟩
  refine ⟨?_, ?_, ?_, ?_, ?_, ?_⟩
  · intro C L ts showL model X y alpha mb_size pa perm idxs mbs0 hmb
    constructor
    · rw [sgd_eq, hmb, Option.some_bind, runIters_zero, Option.some_bind]
    · intro n_iter m' log tr h1
      rw [sgd_eq, hmb, Option.some_bind] at h1
      exact key C Unit L _ mbs0 idxs pa showL n_iter model () m' log tr
        (sgdStep_identity ts alpha) h1
  · intro C L ts showL model X y alpha mb_size pa perm idxs mbs0 hmb
    constructor
    · rw [momentum_eq, hmb, Option.some_bind, runIters_zero, Option.some_bind]
    · intro n_iter m' log tr h1
      rw [momentum_eq, hmb, Option.some_bind] at h1
      exact key C PMap L _ mbs0 idxs pa showL n_iter model _ m' log tr
        (momentumStep_identity ts 0.9 alpha) h1
  · intro C L ts showL model X y alpha mb_size pa perm idxs al0 mbs0 hmb
    constructor
    · rw [nesterov_eq, hmb, Option.some_bind, runIters_zero, Option.some_bind]
    · intro n_iter m' log tr h1
      rw [nesterov_eq, hmb, Option.some_bind] at h1
      exact key C (PMap × Nat) L _ mbs0 idxs pa showL n_iter model _ m' log tr
        (nesterovStep_identity ts 0.9 alpha) h1
  · intro C L ts showL model X y alpha mb_size pa perm idxs mbs0 hmb
    constructor
    · rw [adagrad_eq, hmb, Option.some_bind, runIters_zero, Option.some_bind]
    · intro n_iter m' log tr h1
      rw [adagrad_eq, hmb, Option.some_bind] at h1
      exact key C PMap L _ mbs0 idxs pa showL n_iter model _ m' log tr
        (adagradStep_identity ts alpha) h1
  · intro C L ts showL model X y alpha mb_size pa perm idxs mbs0 hmb
    constructor
    · rw [rmsprop_eq, hmb, Option.some_bind, runIters_zero, Option.some_bind]
    · intro n_iter m' log tr h1
      rw [rmsprop_eq, hmb, Option.some_bind] at h1
      exact key C PMap L _ mbs0 idxs pa showL n_iter model _ m' log tr
        (rmspropStep_identity ts 0.9 alpha) h1
  · intro C L ts showL model X y alpha mb_size pa perm idxs mbs0 hmb
    constructor
    · rw [adam_eq, hmb, Option.some_bind, runIters_zero, Option.some_bind]
    · intro n_iter m' log tr h1
      rw [adam_eq, hmb, Option.some_bind] at h1
      exact key C (PMap × PMap) L _ mbs0 idxs pa showL n_iter model _ m' log tr
        (adamStep_identity ts 0.9 0.999 alpha) h1

/-- Witness for C8: concrete sgd calls with `n_iter = 0` and `n_iter` free. -/
theorem zero_iters_and_same_object_witness :
    (sgd tsK toString mK [[(1:ℚ)]] [(1:ℚ)] 1 1 0 1 [0] (fun _ => 0)
      = some (mK, [], [])) ∧
    (∀ (n_iter : Nat) (m' : Model Unit) (log : List String)
        (tr : List (Nat × Nat × MB × Nat)),
      sgd tsK toString mK [[(1:ℚ)]] [(1:ℚ)] 1 1 n_iter 1 [0] (fun _ => 0)
          = some (m', log, tr) →
      m'.addr = mK.addr ∧ m'.cachesAddr = mK.cachesAddr ∧
        m'.caches = mK.caches) :=
  zero_iters_and_same_object.1 Unit Nat tsK toString mK [[(1:ℚ)]] [(1:ℚ)] 1 1 1
    [0] (fun _ => 0) [([[(1:ℚ)]], [(1:ℤ)])] rfl

/-- `zerosLikeP` looks up to the zeroed value of the underlying entry. -/
theorem lookupP_zerosLikeP : ∀ (m : PMap) (k : String),
    lookupP (zerosLikeP m) k = (lookupP m k).map zerosLike := by
  intro m k
  induction m with
  | nil => rfl
  | cons kv rest ih =>
    rw [show zerosLikeP (kv :: rest) =
      (kv.1, zerosLike kv.2) :: zerosLikeP rest from rfl]
    show (if kv.1 = k then some (zerosLike kv.2) else lookupP (zerosLikeP rest) k)
      = ((if kv.1 = k then some kv.2 else lookupP rest k)).map zerosLike
    by_cases h : kv.1 = k
    · rw [if_pos h, if_pos h]
      rfl
    · rw [if_neg h, if_neg h, ih]

/-- **C9.** Every optimizer's auxiliary state is freshly initialized (in the
function bodies, visibly `zerosLikeP model.net_params` — a pure function of
the arguments, hence independent of any prior call) to all-zero arrays whose
key set and per-key lengths equal the parameter set's; and no successful
training call ever changes the parameter set's key list. -/
theorem state_zero_init_and_keys_fixed :
    (∀ ps : PMap, keysP (zerosLikeP ps) = keysP ps) ∧
    (∀ (ps : PMap) (k : String),
      lookupP (zerosLikeP ps) k = (lookupP ps k).map zerosLike) ∧
    (∀ p : Arr, isZeroArr (zerosLike p) ∧ (zerosLike p).length = p.length) ∧
    (∀ (C L : Type) (ts : TrainStep C L) (showL : L → String) (model : Model C)
        (X : List (List ℚ)) (y : List ℚ) (alpha : ℝ) (mb_size n_iter pa : Nat)
        (perm : List Nat) (idxs : Nat → Nat) (m' : Model C) (log : List String)
        (tr : List (Nat × Nat × MB × L)),
      sgd ts showL model X y alpha mb_size n_iter pa perm idxs
          = some (m', log, tr) →
      keysP m'.net_params = keysP model.net_params) ∧
    (∀ (C L : Type) (ts : TrainStep C L) (showL : L → String) (model : Model C)
        (X : List (List ℚ)) (y : List ℚ) (alpha : ℝ) (mb_size n_iter pa : Nat)
        (perm : List Nat) (idxs : Nat → Nat) (m' : Model C) (log : List String)
        (tr : List (Nat × Nat × MB × L)),
      momentum ts showL model X y alpha mb_size n_iter pa perm idxs
          = some (m', log, tr) →
      keysP m'.net_params = keysP model.net_params) ∧
    (∀ (C L : Type) (ts : TrainStep C L) (showL : L → String) (model : Model C)
        (X : List (List ℚ)) (y : List ℚ) (alpha : ℝ) (mb_size n_iter pa : Nat)
        (perm : List Nat) (idxs : Nat → Nat) (al0 : Nat) (m' : Model C)
        (log : List String) (tr : List (Nat × Nat × MB × L)),
      nesterov ts showL model X y alpha mb_size n_iter pa perm idxs al0
          = some (m', log, tr) →
      keysP m'.net_params = keysP model.net_params) ∧
    (∀ (C L : Type) (ts : TrainStep C L) (showL : L → String) (model : Model C)
        (X : List (List ℚ)) (y : List ℚ) (alpha : ℝ) (mb_size n_iter pa : Nat)
        (perm : List Nat) (idxs : Nat → Nat) (m' : Model C) (log : List String)
        (tr : List (Nat × Nat × MB × L)),
      adagrad ts showL model X y alpha mb_size n_iter pa perm idxs
          = some (m', log, tr) →
      keysP m'.net_params = keysP model.net_params) ∧
    (∀ (C L : Type) (ts : TrainStep C L) (showL : L → String) (model : Model C)
        (X : List (List ℚ)) (y : List ℚ) (alpha : ℝ) (mb_size n_iter pa : Nat)
        (perm : List Nat) (idxs : Nat → Nat) (m' : Model C) (log : List String)
        (tr : List (Nat × Nat × MB × L)),
      rmsprop ts showL model X y alpha mb_size n_iter pa perm idxs
          = some (m', log, tr) →
      keysP m'.net_params = keysP model.net_params) ∧
    (∀ (C L : Type) (ts : TrainStep C L) (showL : L → String) (model : Model C)
        (X : List (List ℚ)) (y : List ℚ) (alpha : ℝ) (mb_size n_iter pa : Nat)
        (perm : List Nat) (idxs : Nat → Nat) (m' : Model C) (log : List String)
        (tr : List (Nat × Nat × MB × L)),
      adam ts showL model X y alpha mb_size n_iter pa perm idxs
          = some (m', log, tr) →
      keysP m'.net_params = keysP model.net_params) := by
  have key : ∀ (C S L : Type)
      (step : Nat → Model C → S → MB → Option ((Model C × S) × L))
      (mbs0 : List MB) (idxs : Nat → Nat) (pa : Nat) (showL : L → String)
      (n_iter : Nat) (model : Model C) (s0 : S) (m' : Model C)
      (log : List String) (tr : List (Nat × Nat × MB × L)),
      (∀ t m s mb out, step t m s mb = some out →
        keysP out.1.1.net_params = keysP m.net_params) →
      (runIters step mbs0 idxs pa showL 1 n_iter model s0 [] []).bind
          (fun out => some (out.1, out.2.2)) = some (m', log, tr) →
      keysP m'.net_params = keysP model.net_params := by
    intro C S L step mbs0 idxs pa showL n_iter model s0 m' log tr hpres hrun
    obtain ⟨out, hout, hsome⟩ := Option.bind_eq_some.mp hrun
    have hm : out.1 = m' := congrArg Prod.fst (Option.some.inj hsome)
    have := runIters_keys step mbs0 idxs pa showL hpres
      n_iter 1 model s0 [] [] out.1 out.2.1 out.2.2.1 out.2.2.2 hout
    exact hm ▸ this
  refine ⟨keysP_zerosLikeP, lookupP_zerosLikeP,
    fun p => ⟨isZeroArr_zerosLike p, length_zerosLike p⟩,
    ?_, ?_, ?_, ?_, ?_, ?_⟩
  · intro C L ts showL model X y alpha mb_size n_iter pa perm idxs m' log tr h1
    rw [sgd_eq] at h1
    obtain ⟨mbs0, _, h1'⟩ := Option.bind_eq_some.mp h1
    exact key C Unit L _ mbs0 idxs pa showL n_iter model () m' log tr
      (sgdStep_keys ts alpha) h1'
  · intro C L ts showL model X y alpha mb_size n_iter pa perm idxs m' log tr h1
    rw [momentum_eq] at h1
    obtain ⟨mbs0, _, h1'⟩ := Option.bind_eq_some.mp h1
    exact key C PMap L _ mbs0 idxs pa showL n_iter model _ m' log tr
      (momentumStep_keys ts 0.9 alpha) h1'
  · intro C L ts showL model X y alpha mb_size n_iter pa perm idxs al0 m' log
      tr h1
    rw [nesterov_eq] at h1
    obtain ⟨mbs0, _, h1'⟩ := Option.bind_eq_some.mp h1
    exact key C (PMap × Nat) L _ mbs0 idxs pa showL n_iter model _ m' log tr
      (nesterovStep_keys ts 0.9 alpha) h1'
  · intro C L ts showL model X y alpha mb_size n_iter pa perm idxs m' log tr h1
    rw [adagrad_eq] at h1
    obtain ⟨mbs0, _, h1'⟩ := Option.bind_eq_some.mp h1
    exact key C PMap L _ mbs0 idxs pa showL n_iter model _ m' log tr
      (adagradStep_keys ts alpha) h1'
  · intro C L ts showL model X y alpha mb_size n_iter pa perm idxs m' log tr h1
    rw [rmsprop_eq] at h1
    obtain ⟨mbs0, _, h1'⟩ := Option.bind_eq_some.mp h1
    exact key C PMap L _ mbs0 idxs pa showL n_iter model _ m' log tr
      (rmspropStep_keys ts 0.9 alpha) h1'
  · intro C L ts showL model X y alpha mb_size n_iter pa perm idxs m' log tr h1
    rw [adam_eq] at h1
    obtain ⟨mbs0, _, h1'⟩ := Option.bind_eq_some.mp h1
    exact key C (PMap × PMap) L _ mbs0 idxs pa showL n_iter model _ m' log tr
      (adamStep_keys ts 0.9 0.999 alpha) h1'

/-- Witness for C9: the key list is preserved across a concrete 2-iteration
sgd run. -/
theorem state_zero_init_and_keys_fixed_witness :
    keysP (Model.net_params (⟨0, [("W", [])], 0, ()⟩ : Model Unit))
      = keysP mK.net_params :=
  state_zero_init_and_keys_fixed.2.2.2.1 Unit Nat tsK toString mK [[(1:ℚ)]]
    [(1:ℚ)] 1 1 2 1 [0] (fun _ => 0) ⟨0, [("W", [])], 0, ()⟩
    ["Iter-1 loss: 0", "Iter-2 loss: 0"]
    [(1, 0, ([[(1:ℚ)]], [(1:ℤ)]), 0), (2, 0, ([[(1:ℚ)]], [(1:ℤ)]), 0)] rfl

/-! ### Claim C10: `shuffle` does not mutate the caller's arrays

`np.random.shuffle` mutates its argument in place, but `shuffle` applies it
to the FRESH array allocated by `np.column_stack` (which always copies), so
the caller's `X` and `y` arrays are untouched.  To state this, arrays live
in an explicit store addressed by `Nat`; `columnStack` allocates a fresh
address, `npShuffleRows` mutates in place at an address. -/

/-- A numpy array object: a matrix (list of rows) or a vector. -/
inductive NpVal : Type
  | mat (rows : List (List ℚ))
  | vec (entries : List ℚ)

/-- The store of live array objects, addressed by `Nat`. -/
abbrev Store := List (Nat × NpVal)

def storeGet : Store → Nat → Option NpVal
  | [], _ => none
  | av :: rest, a => if av.1 = a then some av.2 else storeGet rest a

def storeSet (s : Store) (a : Nat) (v : NpVal) : Store :=
  s.map (fun av => if av.1 = a then (a, v) else av)

/-- A fresh address: strictly larger than every address in the store. -/
def freshA (s : Store) : Nat :=
  (s.map Prod.fst).foldr (fun a b => max a b) 0 + 1

/-- `Z = np.column_stack((X, y))`: reads the matrix at `aX` and the vector
at `ay`, and allocates a NEW array holding the stacked rows (column_stack
always copies its inputs). -/
def columnStack (s : Store) (aX ay : Nat) : Option (Store × Nat) :=
  match storeGet s aX, storeGet s ay with
  | some (NpVal.mat X), some (NpVal.vec y) =>
      some ((freshA s, NpVal.mat (stackRows X y)) :: s, freshA s)
  | _, _ => none

/-- `np.random.shuffle(Z)`: permutes the rows of the array at `a` IN PLACE
(the random permutation is the explicit input `perm`). -/
def npShuffleRows (s : Store) (a : Nat) (perm : List Nat) : Option Store :=
  match storeGet s a with
  | some (NpVal.mat Z) => some (storeSet s a (NpVal.mat (permuteRows perm Z)))
  | _ => none

/-- The store-level `shuffle(X, y)`: stack into a fresh array, shuffle that
array in place, and return the two slices as pure values. -/
def shuffleOp (s : Store) (aX ay : Nat) (perm : List Nat) :
    Option (Store × (List (List ℚ) × List ℤ)) :=
  match columnStack s aX ay with
  | some (s1, aZ) =>
    match npShuffleRows s1 aZ perm with
    | some s2 =>
      match storeGet s2 aZ with
      | some (NpVal.mat Zs) =>
          some (s2, (Zs.map List.dropLast,
            Zs.map (fun r => truncInt (r.getLastD 0))))
      | _ => none
    | _ => none
  | _ => none

/-- The store-level `get_minibatch`: shuffle, then slice (pure). -/
def get_minibatchOp (s : Store) (aX ay : Nat) (minibatch_size : Nat)
    (perm : List Nat) : Option (Store × List MB) :=
  if minibatch_size = 0 then none
  else
    match shuffleOp s aX ay perm with
    | some (s2, v) =>
        some (s2, (List.range ((v.1.length + minibatch_size - 1)
            / minibatch_size)).map
          (fun j => ((v.1.drop (j * minibatch_size)).take minibatch_size,
            (v.2.drop (j * minibatch_size)).take minibatch_size)))
    | none => none

theorem storeGet_cons (av : Nat × NpVal) (rest : Store) (a : Nat) :
    storeGet (av :: rest) a = if av.1 = a then some av.2 else storeGet rest a := rfl

theorem storeSet_cons (av : Nat × NpVal) (rest : Store) (a : Nat) (v : NpVal) :
    storeSet (av :: rest) a v =
      (if av.1 = a then (a, v) else av) :: storeSet rest a v := rfl

theorem storeSet_of_not_mem (s : Store) (a : Nat) (v : NpVal)
    (ha : a ∉ s.map Prod.fst) : storeSet s a v = s := by
  induction s with
  | nil => rfl
  | cons av rest ih =>
    rw [List.map_cons, List.mem_cons] at ha
    push_neg at ha
    rw [storeSet_cons, if_neg (fun he => ha.1 he.symm), ih ha.2]

theorem le_foldr_max : ∀ (l : List Nat) (a : Nat), a ∈ l →
    a ≤ l.foldr (fun x b => max x b) 0 := by
  intro l
  induction l with
  | nil =>
    intro a ha
    simp at ha
  | cons x xs ih =>
    intro a ha
    show a ≤ max x (xs.foldr (fun x b => max x b) 0)
    rcases List.mem_cons.mp ha with h | h
    · rw [h]
      exact le_max_left _ _
    · exact le_trans (ih a h) (le_max_right _ _)

theorem lt_freshA_of_mem (s : Store) (a : Nat) (ha : a ∈ s.map Prod.fst) :
    a < freshA s :=
  Nat.lt_succ_of_le (le_foldr_max (s.map Prod.fst) a ha)

/-- **C10.** `shuffle` (and hence `get_minibatch`) never modifies the
caller's feature matrix or label vector: the permutation is applied in
place to the freshly stacked COPY of the data, so after the call every
pre-existing array in the store — in particular `X_train` at `aX` and
`y_train` at `ay` — still holds its original values in their original
order; and the values returned agree with the pure `shuffle` /
`get_minibatch` of the original contents. -/
theorem shuffle_no_mutation (s : Store) (aX ay : Nat) (X : List (List ℚ))
    (y : List ℚ) (perm : List Nat) (k : Nat) (hk : k ≠ 0)
    (hX : storeGet s aX = some (NpVal.mat X))
    (hy : storeGet s ay = some (NpVal.vec y)) :
    (∃ s2, shuffleOp s aX ay perm = some (s2, shuffle X y perm) ∧
      (∀ a, a ∈ s.map Prod.fst → storeGet s2 a = storeGet s a)) ∧
    (∃ s2 mbs, get_minibatchOp s aX ay k perm = some (s2, mbs) ∧
      get_minibatch X y k perm = some mbs ∧
      (∀ a, a ∈ s.map Prod.fst → storeGet s2 a = storeGet s a)) := by
  have hcs : columnStack s aX ay =
      some ((freshA s, NpVal.mat (stackRows X y)) :: s, freshA s) := by
    unfold columnStack
    rw [hX, hy]
  have hfresh : freshA s ∉ s.map Prod.fst := by
    intro hmem
    exact absurd (lt_freshA_of_mem s (freshA s) hmem) (lt_irrefl _)
  have hget1 : storeGet ((freshA s, NpVal.mat (stackRows X y)) :: s) (freshA s)
      = some (NpVal.mat (stackRows X y)) := by
    rw [storeGet_cons, if_pos rfl]
  have hsetS : storeSet ((freshA s, NpVal.mat (stackRows X y)) :: s) (freshA s)
      (NpVal.mat (permuteRows perm (stackRows X y)))
      = (freshA s, NpVal.mat (permuteRows perm (stackRows X y))) :: s := by
    rw [storeSet_cons, if_pos rfl, storeSet_of_not_mem s (freshA s) _ hfresh]
  have hns : npShuffleRows ((freshA s, NpVal.mat (stackRows X y)) :: s)
      (freshA s) perm
      = some ((freshA s, NpVal.mat (permuteRows perm (stackRows X y))) :: s) := by
    unfold npShuffleRows
    rw [hget1]
    show some (storeSet ((freshA s, NpVal.mat (stackRows X y)) :: s) (freshA s)
      (NpVal.mat (permuteRows perm (stackRows X y)))) = _
    rw [hsetS]
  have hget2 : storeGet
      ((freshA s, NpVal.mat (permuteRows perm (stackRows X y))) :: s) (freshA s)
      = some (NpVal.mat (permuteRows perm (stackRows X y))) := by
    rw [storeGet_cons, if_pos rfl]
  have hshuf : shuffleOp s aX ay perm =
      some ((freshA s, NpVal.mat (permuteRows perm (stackRows X y))) :: s,
        shuffle X y perm) := by
    unfold shuffleOp
    rw [hcs]
    dsimp only
    rw [hns]
    dsimp only
    rw [hget2]
    rfl
  have hframe : ∀ a, a ∈ s.map Prod.fst →
      storeGet ((freshA s, NpVal.mat (permuteRows perm (stackRows X y))) :: s) a
        = storeGet s a := by
    intro a ha
    rw [storeGet_cons,
      if_neg (fun he => hfresh (by rw [show freshA s = a from he]; exact ha))]
  refine ⟨⟨_, hshuf, hframe⟩,
    ⟨(freshA s, NpVal.mat (permuteRows perm (stackRows X y))) :: s,
     (List.range (((shuffle X y perm).1.length + k - 1) / k)).map
       (fun j => (((shuffle X y perm).1.drop (j * k)).take k,
                  ((shuffle X y perm).2.drop (j * k)).take k)),
     ?_, ?_, hframe⟩⟩
  · unfold get_minibatchOp
    rw [if_neg hk, hshuf]
  · rw [get_minibatch, if_neg hk]

/-- Witness for C10 at a concrete two-array store. -/
theorem shuffle_no_mutation_witness :
    (∃ s2, shuffleOp [(0, NpVal.mat [[(1:ℚ)], [2]]), (1, NpVal.vec [3, 4])]
        0 1 [1, 0] = some (s2, shuffle [[(1:ℚ)], [2]] [3, 4] [1, 0]) ∧
      (∀ a, a ∈ ([(0, NpVal.mat [[(1:ℚ)], [2]]),
          (1, NpVal.vec [3, 4])] : Store).map Prod.fst →
        storeGet s2 a = storeGet [(0, NpVal.mat [[(1:ℚ)], [2]]),
          (1, NpVal.vec [3, 4])] a)) ∧
    (∃ s2 mbs, get_minibatchOp [(0, NpVal.mat [[(1:ℚ)], [2]]),
        (1, NpVal.vec [3, 4])] 0 1 1 [1, 0] = some (s2, mbs) ∧
      get_minibatch [[(1:ℚ)], [2]] [3, 4] 1 [1, 0] = some mbs ∧
      (∀ a, a ∈ ([(0, NpVal.mat [[(1:ℚ)], [2]]),
          (1, NpVal.vec [3, 4])] : Store).map Prod.fst →
        storeGet s2 a = storeGet [(0, NpVal.mat [[(1:ℚ)], [2]]),
          (1, NpVal.vec [3, 4])] a)) :=
  shuffle_no_mutation [(0, NpVal.mat [[(1:ℚ)], [2]]), (1, NpVal.vec [3, 4])]
    0 1 [[(1:ℚ)], [2]] [3, 4] [1, 0] 1 (by norm_num) rfl rfl

end Hipsternet
